import Mathlib

/-!
# Verification of the claude-code-slack-bot core

Shallow embedding of the two core components of the repository:

* `ClaudeHandler` (src/claude-handler.ts): per-conversation session records,
  the `streamQuery` async generator that spawns the `claude` CLI subprocess,
  builds its argument list, decodes its newline-delimited JSON stdout and
  tracks the resumable session identifier, and `cleanupInactiveSessions`.
* `WorkingDirectoryManager` (working-directory-manager.ts): scoped working
  directory configuration with path resolution, command parsing, debounced
  persistence and startup reload.

Purely external effects are modelled by explicit parameters:
`decode : String → Option SDKMessage` stands for `JSON.parse` on one stdout
line (restricted to lines that decode to protocol messages), a predicate
`String → Bool` stands for `fs.existsSync`, `String → Option Bool` stands for
`fs.statSync(..).isDirectory()` (`none` = `statSync` threw), and subprocess
termination is an `Option Int` exit code (`none` = exited without a code).
-/

set_option maxRecDepth 4000

/-! ## Small JavaScript-faithful utilities -/

/-- JavaScript string truthiness for optional string fields:
`undefined` and the empty string are falsy. -/
def truthy : Option String → Bool
  | some s => s ≠ ""
  | none => false

/-- The character class `\s` of a JavaScript regular expression (also the set
stripped by `String.prototype.trim`): tab, line feed, vertical tab, form feed,
carriage return, space, NBSP, the Unicode space separators, the line/paragraph
separators and the BOM. -/
def jsWs (c : Char) : Bool :=
  c.toNat = 9 || c.toNat = 10 || c.toNat = 11 || c.toNat = 12 || c.toNat = 13 ||
  c.toNat = 32 || c.toNat = 160 || c.toNat = 0x1680 ||
  (0x2000 ≤ c.toNat && c.toNat ≤ 0x200a) ||
  c.toNat = 0x2028 || c.toNat = 0x2029 || c.toNat = 0x202f ||
  c.toNat = 0x205f || c.toNat = 0x3000 || c.toNat = 0xfeff

/-- The character class `.` of a JavaScript regular expression without the `s`
flag: anything but a line terminator. -/
def jsDot (c : Char) : Bool :=
  !(c.toNat = 10 || c.toNat = 13 || c.toNat = 0x2028 || c.toNat = 0x2029)

/-- `String.prototype.trim` on a character list: strip `jsWs` from both ends. -/
def jsTrimL (cs : List Char) : List Char :=
  ((cs.dropWhile jsWs).reverse.dropWhile jsWs).reverse

/-- `String.prototype.trim`. -/
def jsTrim (s : String) : String :=
  String.mk (jsTrimL s.data)

/-- `String.prototype.startsWith` (structural implementation of
`String.startsWith`). -/
def strStartsWith (s pre : String) : Bool :=
  List.isPrefixOf pre.data s.data

/-- Split a string at every `/` (structural implementation of
`String.splitOn "/"`). -/
def splitSlash : List Char → List String
  | [] => [""]
  | c :: rest =>
    if c = '/' then "" :: splitSlash rest
    else
      match splitSlash rest with
      | s :: tail => String.mk (c :: s.data) :: tail
      | [] => [String.mk [c]]

/-- Lookup in a JavaScript `Map` (modelled as an association list in insertion
order): `map.get(k)`. -/
def mget {α : Type} (m : List (String × α)) (k : String) : Option α :=
  match m.find? (fun p => p.1 = k) with
  | some p => some p.2
  | none => none

/-- `map.set(k, v)`: replace in place if the key is present, else append. -/
def mset {α : Type} (m : List (String × α)) (k : String) (v : α) : List (String × α) :=
  if (m.find? (fun p => p.1 = k)).isSome then
    m.map (fun p => if p.1 = k then (k, v) else p)
  else
    m ++ [(k, v)]

/-- `map.delete(k)` (the resulting map; the returned boolean is
`(mget m k).isSome`). -/
def mdel {α : Type} (m : List (String × α)) (k : String) : List (String × α) :=
  m.filter (fun p => p.1 ≠ k)

/-! ## ClaudeHandler: data model (src/claude-handler.ts) -/

/-- `SDKMessage` (claude-handler.ts): one decoded line of the subprocess
stdout protocol. The open `[key: string]: any` passthrough fields are never
read by this component and are omitted; the fields below are the declared
ones. Timestamps are milliseconds since epoch (`Date.getTime()`), as `Int`. -/
structure SDKMessage where
  type : String
  subtype : Option String := none
  content : Option String := none
  tool : Option String := none
  tool_call_id : Option String := none
  session_id : Option String := none
deriving DecidableEq

/-- `ConversationSession` (types.ts, used by claude-handler.ts). -/
structure ConversationSession where
  userId : String
  channelId : String
  threadTs : Option String := none
  isActive : Bool := true
  lastActivity : Int := 0
  sessionId : Option String := none
deriving DecidableEq

/-- The optional Slack caller context handed to `streamQuery`. -/
structure SlackContext where
  channel : String
  threadTs : Option String := none
  user : String
deriving DecidableEq

/-- `ClaudeHandler.getSessionKey`. -/
def getSessionKey (userId channelId : String) (threadTs : Option String) : String :=
  userId ++ "-" ++ channelId ++ "-" ++ (match threadTs with | some ts => ts | none => "direct")

/-- `ClaudeHandler.createSession`: the record stored for a fresh session
(`isActive = true`, `lastActivity = now`, no resumable identifier yet). -/
def createSession (userId channelId : String) (threadTs : Option String) (now : Int) :
    ConversationSession :=
  { userId := userId, channelId := channelId, threadTs := threadTs,
    isActive := true, lastActivity := now, sessionId := none }

/-! ## ClaudeHandler: streamQuery -/

/-- The guard of claude-handler.ts line 170:
`message.type === 'system' && message.subtype === 'init'`. -/
def initMatches (m : SDKMessage) : Bool :=
  m.type = "system" && m.subtype = some "init"

/-- Lines 170–177 of claude-handler.ts: when a session was supplied and the
message is the system/init message, store its `session_id` into the session
record; otherwise leave the session untouched. -/
def processInit (sess : Option ConversationSession) (m : SDKMessage) :
    Option ConversationSession :=
  match sess with
  | some s => if initMatches m then some { s with sessionId := m.session_id } else some s
  | none => none

/-- The `for await (const line of readlineInterface)` loop of
claude-handler.ts lines 164–185: skip blank lines, decode each remaining line
with `JSON.parse` (modelled by `decode`; a decode failure is logged and the
line is skipped), capture the session identifier from system/init messages,
and yield every decoded message in arrival order. Returns the yielded
messages and the session record as left after the stream. -/
def runStream (decode : String → Option SDKMessage) :
    List String → Option ConversationSession →
    List SDKMessage × Option ConversationSession
  | [], sess => ([], sess)
  | line :: rest, sess =>
    if jsTrim line ≠ "" then
      match decode line with
      | some m =>
        let out := runStream decode rest (processInit sess m)
        (m :: out.1, out.2)
      | none => runStream decode rest sess
    else
      runStream decode rest sess

/-- Lines 187–196 of claude-handler.ts: after the stream is fully consumed,
exit code `0` or a `null` exit code (expected under cancellation) resolves
the query; any other exit code rejects it with a terminal error. -/
def exitOutcome (code : Option Int) : Except String Unit :=
  match code with
  | some c => if c = 0 then Except.ok () else Except.error ("Claude CLI exited with code " ++ toString c)
  | none => Except.ok ()

/-- One complete run of the body of `ClaudeHandler.streamQuery` over a given
subprocess stdout (as a list of lines) and exit code: the yielded message
sequence, the session record after the stream, and the terminal outcome
(which is only determined after every message has been yielded). -/
def streamQueryRun (decode : String → Option SDKMessage) (lines : List String)
    (sess : Option ConversationSession) (exitCode : Option Int) :
    List SDKMessage × Option ConversationSession × Except String Unit :=
  let out := runStream decode lines sess
  (out.1, out.2, exitOutcome exitCode)

/-- Lines 55–121 of claude-handler.ts: the `claude` CLI argument list.
`mcpServerNames` are the keys of the external tool-server configuration
(`mcpManager.getServerConfiguration()`), `mcpConfigJson` the opaque
`JSON.stringify` of the merged server map, `defaultMcpTools` the externally
supplied allowed-tool list. `sessionId` is `session?.sessionId`; JavaScript
truthiness makes an empty identifier equivalent to an absent one. -/
def buildArgsCommon (workingDirectory : Option String) (slackContext : Option SlackContext)
    (mcpServerNames : List String) (mcpConfigJson : String)
    (defaultMcpTools : List String) : List String :=
  let args1 := ["--print", "--output-format", "stream-json", "--verbose"]
  let args2 := args1 ++ (match workingDirectory with | some wd => ["--cwd", wd] | none => [])
  let args3 := args2 ++ ["--permission-mode", if slackContext.isSome then "default" else "bypassPermissions"]
  let finalMcpServers :=
    if slackContext.isSome then
      if mcpServerNames.contains "permission-prompt" then mcpServerNames
      else mcpServerNames ++ ["permission-prompt"]
    else mcpServerNames
  let args4 := args3 ++
    (if slackContext.isSome then
      ["--permission-prompt-tool-name", "mcp__permission-prompt__permission_prompt"]
    else [])
  args4 ++
    (if finalMcpServers.length > 0 then
      let tools := defaultMcpTools ++ (if slackContext.isSome then ["mcp__permission-prompt"] else [])
      ["--mcp-config", mcpConfigJson] ++ (if tools.length > 0 then "--allowedTools" :: tools else [])
    else [])

/-- Lines 112–121 of claude-handler.ts: the session-resume argument pair
(present iff the supplied session carries a truthy resumable identifier) and
the prompt as the final positional argument, appended to the common part. -/
def buildArgs (workingDirectory : Option String) (slackContext : Option SlackContext)
    (mcpServerNames : List String) (mcpConfigJson : String)
    (defaultMcpTools : List String) (sessionId : Option String) (prompt : String) :
    List String :=
  buildArgsCommon workingDirectory slackContext mcpServerNames mcpConfigJson defaultMcpTools ++
    (match sessionId with
     | some sid => if sid ≠ "" then ["--resume", sid] else []
     | none => []) ++
  [prompt]

/-- The running update of `session.sessionId` over a yielded message list:
every system/init message overwrites the stored identifier with its
`session_id` field. -/
def foldInits (start : Option String) (msgs : List SDKMessage) : Option String :=
  msgs.foldl (fun acc m => if initMatches m then m.session_id else acc) start

/-! ## ClaudeHandler: session sweep -/

/-- The removal condition of `cleanupInactiveSessions` (claude-handler.ts
line 216): `now - session.lastActivity.getTime() > maxAge`. -/
def expired (now maxAge : Int) (s : ConversationSession) : Bool :=
  now - s.lastActivity > maxAge

/-- Default `maxAge` of `cleanupInactiveSessions`: 30 minutes. -/
def defaultMaxAge : Int := 30 * 60 * 1000

/-- `ClaudeHandler.cleanupInactiveSessions` (lines 212–224): delete every
session whose last activity is more than `maxAge` ago. The method mutates
`this.sessions` and has no return statement; this is its effect on the
session map. -/
def cleanupInactiveSessions (now maxAge : Int) :
    List (String × ConversationSession) → List (String × ConversationSession)
  | [] => []
  | (k, s) :: rest =>
    if expired now maxAge s then cleanupInactiveSessions now maxAge rest
    else (k, s) :: cleanupInactiveSessions now maxAge rest

/-- The internal `cleaned` counter of `cleanupInactiveSessions` as it stands
after the loop (line 218 increments it once per deletion). It is never
returned to the caller: it only feeds the conditional log line. -/
def cleanedCount (now maxAge : Int) : List (String × ConversationSession) → Nat
  | [] => 0
  | (_, s) :: rest =>
    if expired now maxAge s then cleanedCount now maxAge rest + 1
    else cleanedCount now maxAge rest

/-- The value a call to `cleanupInactiveSessions` evaluates to: the method
has no return statement, so its JavaScript return value is `undefined`
(`none`) — in particular it is never the removal count. -/
def cleanupReturn : Option Nat := none

/-- Lines 221–223: the log line emitted after the sweep, present only when
the internal counter is positive. -/
def cleanupLog (cleaned : Nat) : Option String :=
  if 0 < cleaned then some ("Cleaned up " ++ toString cleaned ++ " inactive sessions")
  else none

/-! ## WorkingDirectoryManager: path model (working-directory-manager.ts)

Node's `path` module on posix. `path.resolve` is modelled under the
assumption that the ambient process working directory is an absolute path. -/

/-- `path.isAbsolute` on posix. -/
def isAbsolute (p : String) : Bool :=
  strStartsWith p "/"

/-- Segment processing of posix path normalization: drop empty and `.`
segments, let `..` pop the previous segment (`abs = true`: `..` at the root
disappears; `abs = false`: leading `..` segments accumulate). -/
def normSegs (abs : Bool) : List String → List String → List String
  | [], acc => acc
  | seg :: rest, acc =>
    if seg = "" || seg = "." then normSegs abs rest acc
    else if seg = ".." then
      match acc.getLast? with
      | some prev =>
        if prev = ".." && !abs then normSegs abs rest (acc ++ [".."])
        else normSegs abs rest acc.dropLast
      | none => normSegs abs rest (if abs then [] else [".."])
    else normSegs abs rest (acc ++ [seg])

/-- `path.normalize` on posix. -/
def pathNormalize (p : String) : String :=
  let abs := isAbsolute p
  let segs := normSegs abs (splitSlash p.data) []
  if abs then "/" ++ String.intercalate "/" segs
  else if segs.isEmpty then "." else String.intercalate "/" segs

/-- `path.join(a, b)` on posix. -/
def pathJoin (a b : String) : String :=
  pathNormalize (a ++ "/" ++ b)

/-- `path.resolve(p)` on posix with ambient working directory `cwd`
(assumed absolute): an absolute `p` is normalized, a relative one is
resolved against `cwd`. -/
def pathResolve (cwd p : String) : String :=
  let full := if isAbsolute p then p else cwd ++ "/" ++ p
  "/" ++ String.intercalate "/" (normSegs true (splitSlash full.data) [])

/-! ## WorkingDirectoryManager: store -/

/-- `WorkingDirectoryConfig` (types.ts). `setAt` is a timestamp in
milliseconds since epoch. -/
structure WorkingDirectoryConfig where
  channelId : String
  threadTs : Option String := none
  userId : Option String := none
  directory : String
  setAt : Int := 0
deriving DecidableEq

/-- The in-memory `configs` map of `WorkingDirectoryManager`. -/
abbrev CfgMap : Type := List (String × WorkingDirectoryConfig)

/-- `WorkingDirectoryManager.getConfigKey` (lines 34–42): thread scope is
`channel-thread`; a direct message (channel id starting with `D`) with a user
is `channel-user`; otherwise the channel alone. JavaScript truthiness applies
to the optional arguments (an empty string behaves like an absent one). -/
def getConfigKey (channelId : String) (threadTs userId : Option String) : String :=
  if truthy threadTs then channelId ++ "-" ++ threadTs.getD ""
  else if truthy userId && strStartsWith channelId "D" then channelId ++ "-" ++ userId.getD ""
  else channelId

/-- `WorkingDirectoryManager.resolveDirectory` (lines 88–121).
`fsEx` models `fs.existsSync`, `baseDirectory` is `config.baseDirectory`
(the empty string when unconfigured), `cwd` is `process.cwd()`. -/
def resolveDirectory (fsEx : String → Bool) (baseDirectory cwd : String)
    (directory : String) : Option String :=
  if isAbsolute directory then
    if fsEx directory then some (pathResolve cwd directory) else none
  else
    let cwdRelativePath := pathResolve cwd directory
    let tryCwd := if fsEx cwdRelativePath then some cwdRelativePath else none
    if baseDirectory ≠ "" then
      let baseRelativePath := pathJoin baseDirectory directory
      if fsEx baseRelativePath then some (pathResolve cwd baseRelativePath) else tryCwd
    else tryCwd

/-- The `{ success, resolvedPath?, error? }` result of
`setWorkingDirectory`. -/
structure SetResult where
  success : Bool
  resolvedPath : Option String := none
  error : Option String := none
deriving DecidableEq

/-- `WorkingDirectoryManager.setWorkingDirectory` (lines 44–86). `statDir p`
models `fs.statSync(p).isDirectory()`, with `none` when `statSync` throws
(the `catch` of lines 82–85 turns that into a typed failure result). Returns
the updated map, whether `scheduleSave` was invoked, and the result value.
Every failure path leaves the map untouched and skips the save. -/
def setWorkingDirectory (fsEx : String → Bool) (statDir : String → Option Bool)
    (baseDirectory cwd : String) (now : Int) (channelId directory : String)
    (threadTs userId : Option String) (configs : CfgMap) :
    CfgMap × Bool × SetResult :=
  match resolveDirectory fsEx baseDirectory cwd directory with
  | none =>
    (configs, false,
      { success := false,
        error := some ("Directory not found: \"" ++ directory ++ "\"" ++
          (if baseDirectory ≠ "" then " (checked in base directory: " ++ baseDirectory ++ ")" else "")) })
  | some resolvedPath =>
    match statDir resolvedPath with
    | none =>
      (configs, false,
        { success := false, error := some "Directory does not exist or is not accessible" })
    | some isDir =>
      if !isDir then
        (configs, false, { success := false, error := some "Path is not a directory" })
      else
        let key := getConfigKey channelId threadTs userId
        let cfg : WorkingDirectoryConfig :=
          { channelId := channelId, threadTs := threadTs, userId := userId,
            directory := resolvedPath, setAt := now }
        (mset configs key cfg, true, { success := true, resolvedPath := some resolvedPath })

/-- `WorkingDirectoryManager.getWorkingDirectory` (lines 123–150): with a
(truthy) thread id, the thread-scoped key is consulted first; only on a miss
does the lookup fall back to the channel/DM key, which is computed without
the thread id. -/
def getWorkingDirectory (configs : CfgMap) (channelId : String)
    (threadTs userId : Option String) : Option String :=
  let fallback :=
    match mget configs (getConfigKey channelId none userId) with
    | some c => some c.directory
    | none => none
  if truthy threadTs then
    match mget configs (getConfigKey channelId threadTs none) with
    | some c => some c.directory
    | none => fallback
  else fallback

/-- `WorkingDirectoryManager.removeWorkingDirectory` (lines 152–160): delete
the scoped key; `scheduleSave` runs only when an entry was actually
removed. Returns the updated map and `configs.delete(key)`. -/
def removeWorkingDirectory (configs : CfgMap) (channelId : String)
    (threadTs userId : Option String) : CfgMap × Bool :=
  let key := getConfigKey channelId threadTs userId
  if (mget configs key).isSome then (mdel configs key, true) else (configs, false)

/-! ## WorkingDirectoryManager: persistence -/

/-- One entry of the persisted document (the `directories` record of
`PersistenceData`). The `type` tag is recomputed on save and never read on
load, so it is omitted here; `setAt` is the persisted ISO-8601 string. -/
structure PersistEntry where
  channelId : String
  threadTs : Option String := none
  userId : Option String := none
  directory : String
  setAt : String
deriving DecidableEq

/-- `PersistenceData` (working-directory-manager.ts lines 8–19). -/
structure PersistenceData where
  version : String
  directories : List (String × PersistEntry)
deriving DecidableEq

/-- `PERSISTENCE_VERSION`. -/
def PERSISTENCE_VERSION : String := "1.0"

/-- `WorkingDirectoryManager.loadFromDisk` (lines 291–340), which runs only
from the constructor, where `configs` is the empty map. `fileExists` models
`fs.existsSync(persistencePath)`; `parsed` the outcome of `JSON.parse` on the
file contents (`none` = the parse threw, caught at lines 336–339);
`parseDate` models `new Date(s).getTime()`; `fsEx` revalidates each entry's
directory. A missing file, a parse failure and a version mismatch all leave
the store empty; otherwise exactly the entries whose directory still exists
are loaded. -/
def loadFromDisk (fsEx : String → Bool) (parseDate : String → Int)
    (fileExists : Bool) (parsed : Option PersistenceData) : CfgMap :=
  if !fileExists then []
  else
    match parsed with
    | none => []
    | some data =>
      if data.version ≠ PERSISTENCE_VERSION then []
      else
        data.directories.foldl
          (fun acc ke =>
            if fsEx ke.2.directory then
              mset acc ke.1
                { channelId := ke.2.channelId, threadTs := ke.2.threadTs,
                  userId := ke.2.userId, directory := ke.2.directory,
                  setAt := parseDate ke.2.setAt }
            else acc)
          []

/-! ## WorkingDirectoryManager: debounced persistence (scheduleSave/saveToDisk)

The manager keeps a single `saveTimer`; `scheduleSave` (lines 237–244) clears
any pending timer and arms a fresh one `SAVE_DEBOUNCE_MS` (1000 ms) in the
future, and the timer callback `saveToDisk` writes a snapshot of the whole
`configs` map. The simulator below drives a store through a sequence of timed
`set`/`remove` mutations under the Node event-loop rule that a due timer
callback runs before later code: each disk write is logged as
`(fire time, map snapshot written)`. -/

/-- `SAVE_DEBOUNCE_MS`. -/
def SAVE_DEBOUNCE_MS : Int := 1000

/-- One timed mutation issued against the manager. -/
inductive MutOp where
  | mset (channelId directory : String) (threadTs userId : Option String)
  | mremove (channelId : String) (threadTs userId : Option String)
deriving DecidableEq

/-- Store state: the in-memory map, the pending save timer (as its fire
time), and the chronological log of disk writes. -/
structure StoreState where
  configs : CfgMap
  saveTimer : Option Int := none
  writes : List (Int × CfgMap) := []
deriving DecidableEq

/-- The filesystem state seen by `setWorkingDirectory` during a simulation. -/
structure FSModel where
  fsEx : String → Bool
  statDir : String → Option Bool

/-- Run the pending save timer if it is due at time `t` (the event loop runs
a due `setTimeout` callback before code scheduled later): `saveToDisk`
writes the whole current map and the timer is spent. -/
def fireDue (t : Int) (st : StoreState) : StoreState :=
  match st.saveTimer with
  | some ft =>
    if ft ≤ t then
      { configs := st.configs, saveTimer := none, writes := st.writes ++ [(ft, st.configs)] }
    else st
  | none => st

/-- Apply one mutation at time `t`: the underlying `setWorkingDirectory` or
`removeWorkingDirectory` runs, and exactly when it invoked `scheduleSave`
the pending timer is replaced by one firing at `t + SAVE_DEBOUNCE_MS`.
Returns the new state and whether a save was scheduled. -/
def applyMutation (fs : FSModel) (baseDirectory cwd : String) (t : Int) (op : MutOp)
    (st : StoreState) : StoreState × Bool :=
  match op with
  | MutOp.mset ch dir ts uid =>
    let r := setWorkingDirectory fs.fsEx fs.statDir baseDirectory cwd t ch dir ts uid st.configs
    if r.2.1 then
      ({ configs := r.1, saveTimer := some (t + SAVE_DEBOUNCE_MS), writes := st.writes }, true)
    else ({ st with configs := r.1 }, false)
  | MutOp.mremove ch ts uid =>
    let r := removeWorkingDirectory st.configs ch ts uid
    if r.2 then
      ({ configs := r.1, saveTimer := some (t + SAVE_DEBOUNCE_MS), writes := st.writes }, true)
    else ({ st with configs := r.1 }, false)

/-- Drive the store through a time-ordered list of mutations. -/
def runMutations (fs : FSModel) (baseDirectory cwd : String) :
    List (Int × MutOp) → StoreState → StoreState
  | [], st => st
  | (t, op) :: rest, st =>
    runMutations fs baseDirectory cwd rest (applyMutation fs baseDirectory cwd t op (fireDue t st)).1

/-- Let the remaining pending timer (if any) fire after the last mutation. -/
def flushFinal (st : StoreState) : StoreState :=
  match st.saveTimer with
  | some ft => { configs := st.configs, saveTimer := none, writes := st.writes ++ [(ft, st.configs)] }
  | none => st

/-- Every mutation of the sequence actually schedules a save (that is, each
`set` succeeds and each `remove` removes an entry), stepping the same way as
`runMutations`. -/
def schedOk (fs : FSModel) (baseDirectory cwd : String) :
    List (Int × MutOp) → StoreState → Bool
  | [], _ => true
  | (t, op) :: rest, st =>
    let r := applyMutation fs baseDirectory cwd t op (fireDue t st)
    r.2 && schedOk fs baseDirectory cwd rest r.1

/-- The pure effect of one mutation on the map alone. -/
def applyOp (fs : FSModel) (baseDirectory cwd : String) (t : Int) (op : MutOp)
    (cfgs : CfgMap) : CfgMap :=
  match op with
  | MutOp.mset ch dir ts uid =>
    (setWorkingDirectory fs.fsEx fs.statDir baseDirectory cwd t ch dir ts uid cfgs).1
  | MutOp.mremove ch ts uid => (removeWorkingDirectory cfgs ch ts uid).1

/-- The pure effect of a mutation sequence on the map alone. -/
def applyOps (fs : FSModel) (baseDirectory cwd : String) :
    List (Int × MutOp) → CfgMap → CfgMap
  | [], cfgs => cfgs
  | (t, op) :: rest, cfgs => applyOps fs baseDirectory cwd rest (applyOp fs baseDirectory cwd t op cfgs)

/-! ## WorkingDirectoryManager: parseSetCommand

`parseSetCommand` (lines 166–178) runs two JavaScript regular expressions,
case-insensitive, anchored at both ends, against the raw text:

* `^cwd\s+(.+)$`
* `^set\s+(?:cwd|dir|directory|working[- ]?directory)\s+(.+)$`

and returns the trimmed capture of the first that matches. The matcher below
is a direct backtracking implementation: `stripCI` consumes a literal pattern
case-insensitively, `tryDrops` implements a greedy `\s+` (longest whitespace
run first, backtracking one character at a time) followed by a continuation,
and `dotCapture` implements the anchored `(.+)$`. -/

/-- Consume `pat` case-insensitively (`/i`) from the front of the input,
returning the rest. -/
def stripCI : List Char → List Char → Option (List Char)
  | [], s => some s
  | _ :: _, [] => none
  | p :: ps, c :: cs => if c.toLower = p.toLower then stripCI ps cs else none

/-- The anchored capture `(.+)$`: the whole remaining input, which must be
nonempty and free of line terminators. -/
def dotCapture (s : List Char) : Option (List Char) :=
  if !s.isEmpty && s.all jsDot then some s else none

/-- Greedy `\s+` followed by continuation `k`: try consuming `n` whitespace
characters first, then backtrack down to one. -/
def tryDrops (k : List Char → Option (List Char)) : Nat → List Char → Option (List Char)
  | 0, _ => none
  | n + 1, rest =>
    match k (rest.drop (n + 1)) with
    | some r => some r
    | none => tryDrops k n rest

/-- `\s+` (greedy, with backtracking into `k`): the longest run it can eat is
the maximal whitespace prefix of the input. -/
def wsPlus (k : List Char → Option (List Char)) (rest : List Char) : Option (List Char) :=
  tryDrops k (rest.takeWhile jsWs).length rest

/-- `\s+(.+)$`. -/
def wsCapture (rest : List Char) : Option (List Char) :=
  wsPlus dotCapture rest

/-- One keyword alternative: the literal keyword, then `\s+(.+)$`. -/
def kwBranch (pat : List Char) (s : List Char) : Option (List Char) :=
  match stripCI pat s with
  | some r => wsCapture r
  | none => none

/-- The continuation after the literal `working` inside the alternative
`working[- ]?directory`: the optional `[- ]` separator class is tried
greedily (separator present first; on failure of that whole path, the
separator matches empty), then the literal `directory`, then `\s+(.+)$`. -/
def workingTail (w : List Char) : Option (List Char) :=
  match w with
  | [] => kwBranch "directory".data []
  | c :: w2 =>
    if c = '-' || c = ' ' then
      match kwBranch "directory".data w2 with
      | some r => some r
      | none => kwBranch "directory".data (c :: w2)
    else
      kwBranch "directory".data (c :: w2)

/-- The alternation `(?:cwd|dir|directory|working[- ]?directory)` followed by
`\s+(.+)$`, with the alternatives tried left to right. -/
def keywordTail (s : List Char) : Option (List Char) :=
  match kwBranch "cwd".data s with
  | some r => some r
  | none =>
  match kwBranch "dir".data s with
  | some r => some r
  | none =>
  match kwBranch "directory".data s with
  | some r => some r
  | none =>
  match stripCI "working".data s with
  | some w => workingTail w
  | none => none

/-- The short form `^cwd\s+(.+)$`. -/
def matchCwdForm (cs : List Char) : Option (List Char) :=
  match stripCI "cwd".data cs with
  | some rest => wsCapture rest
  | none => none

/-- The long form `^set\s+(?:cwd|dir|directory|working[- ]?directory)\s+(.+)$`. -/
def matchSetForm (cs : List Char) : Option (List Char) :=
  match stripCI "set".data cs with
  | some rest => wsPlus keywordTail rest
  | none => none

/-- `WorkingDirectoryManager.parseSetCommand` (lines 166–178): the trimmed
capture of the first matching form, `none` when neither matches. -/
def parseSetCommand (text : String) : Option String :=
  match matchCwdForm text.data with
  | some cap => some (jsTrim (String.mk cap))
  | none =>
    match matchSetForm text.data with
    | some cap => some (jsTrim (String.mk cap))
    | none => none

/-! ## Spec-side definitions

These definitions follow the wording of the specification and of the claims
(not the source); they exist to be compared with the source-translated
definitions above. -/

/-- The keyword alternation exactly as claim C9 words it, with a *mandatory*
`[- ]` separator in the working-directory keyword:
`(?:cwd|dir|directory|working[- ]directory)` followed by `\s+(.+)$`. -/
def claimWorkingTail (w : List Char) : Option (List Char) :=
  match w with
  | [] => none
  | c :: w2 => if c = '-' || c = ' ' then kwBranch "directory".data w2 else none

/-- The keyword alternation of claim C9, continued by `\s+(.+)$`. -/
def claimKeywordTail (s : List Char) : Option (List Char) :=
  match kwBranch "cwd".data s with
  | some r => some r
  | none =>
  match kwBranch "dir".data s with
  | some r => some r
  | none =>
  match kwBranch "directory".data s with
  | some r => some r
  | none =>
  match stripCI "working".data s with
  | some w => claimWorkingTail w
  | none => none

/-- The long form of the set-command grammar exactly as claim C9 words it. -/
def claimMatchSetForm (cs : List Char) : Option (List Char) :=
  match stripCI "set".data cs with
  | some rest => wsPlus claimKeywordTail rest
  | none => none

/-- The set-command parser exactly as claim C9 words it: the short form
`cwd <value>` or the long form
`set (cwd|dir|directory|working[- ]directory) <value>`, case-insensitive,
with the captured value trimmed; anything else is not a set command. -/
def claimParseSet (text : String) : Option String :=
  match matchCwdForm text.data with
  | some cap => some (jsTrim (String.mk cap))
  | none =>
    match claimMatchSetForm text.data with
    | some cap => some (jsTrim (String.mk cap))
    | none => none

/-- `s` is a case-insensitive rendering of the literal pattern `pat`. -/
def ciIs (s pat : List Char) : Prop :=
  stripCI pat s = some []

/-- A case-insensitive rendering of one keyword of the *amended* long-form
grammar `set (cwd|dir|directory|working[- ]?directory) <value>` (the
separator inside the working-directory keyword is optional, matching the
`?` in the source regular expression). -/
def KwPat (kw : List Char) : Prop :=
  ciIs kw "cwd".data ∨ ciIs kw "dir".data ∨ ciIs kw "directory".data ∨
  (∃ w sep d, kw = w ++ sep :: d ∧ ciIs w "working".data ∧ (sep = '-' ∨ sep = ' ') ∧
    ciIs d "directory".data) ∨
  (∃ w d, kw = w ++ d ∧ ciIs w "working".data ∧ ciIs d "directory".data)

/-- Declarative reading of the short form `cwd <value>`: the text is the
keyword `cwd` (case-insensitive), one or more whitespace characters, then a
nonempty line-terminator-free value, of which `v` is the trim. -/
def AGShort (cs : List Char) (v : String) : Prop :=
  ∃ pre ws val, cs = pre ++ ws ++ val ∧ ciIs pre "cwd".data ∧
    ws ≠ [] ∧ (∀ c ∈ ws, jsWs c = true) ∧ val ≠ [] ∧ (∀ c ∈ val, jsDot c = true) ∧
    v = jsTrim (String.mk val)

/-- Declarative reading of the amended long form
`set (cwd|dir|directory|working[- ]?directory) <value>`. -/
def AGLong (cs : List Char) (v : String) : Prop :=
  ∃ pre ws1 kw ws2 val, cs = pre ++ ws1 ++ kw ++ ws2 ++ val ∧ ciIs pre "set".data ∧
    ws1 ≠ [] ∧ (∀ c ∈ ws1, jsWs c = true) ∧ KwPat kw ∧
    ws2 ≠ [] ∧ (∀ c ∈ ws2, jsWs c = true) ∧ val ≠ [] ∧ (∀ c ∈ val, jsDot c = true) ∧
    v = jsTrim (String.mk val)

/-- The amended set-command grammar: text `text` is accepted with trimmed
value `v`. -/
def AmendedSetGrammar (text v : String) : Prop :=
  AGShort text.data v ∨ AGLong text.data v

/-! ## Concrete fixtures (used by witnesses and counterexamples) -/

/-- A system/init protocol line carrying session identifier `A`. -/
def lineA : String :=
  "\x7b\"type\":\"system\",\"subtype\":\"init\",\"session_id\":\"A\"\x7d"

/-- A second system/init protocol line carrying session identifier `B`. -/
def lineB : String :=
  "\x7b\"type\":\"system\",\"subtype\":\"init\",\"session_id\":\"B\"\x7d"

/-- `JSON.parse lineA`. -/
def msgA : SDKMessage :=
  { type := "system", subtype := some "init", session_id := some "A" }

/-- `JSON.parse lineB`. -/
def msgB : SDKMessage :=
  { type := "system", subtype := some "init", session_id := some "B" }

/-- `JSON.parse`, restricted to the two protocol lines above; every other
line (such as the malformed `oops`) fails to decode. -/
def decodeEx (l : String) : Option SDKMessage :=
  if l = lineA then some msgA else if l = lineB then some msgB else none

/-- A fresh conversation session record. -/
def sessU : ConversationSession :=
  { userId := "U1", channelId := "C1" }

/-- A persisted document with a stale schema version and nonempty contents. -/
def dataV09 : PersistenceData :=
  { version := "0.9",
    directories := [("C1", { channelId := "C1", directory := "/proj",
                             setAt := "2024-01-01T00:00:00.000Z" })] }

/-- A filesystem on which only `/w` exists and is a directory. -/
def fsW : FSModel :=
  { fsEx := fun p => p == "/w", statDir := fun p => if p == "/w" then some true else none }

/-! # Theorems -/

/-! ## C2: exit-code semantics of streamQuery -/

/-- C2: for every run of `streamQuery`, a subprocess exit code of zero, or
termination with no exit code (as under cancellation), results in normal
completion of the message sequence; any other exit code causes a terminal
error to be raised for that query, and only after all decoded messages of
the sequence have been yielded (the yielded sequence is the full decoded
stream, independent of the exit code). -/
theorem C2_exit_code_semantics (decode : String → Option SDKMessage)
    (lines : List String) (sess : Option ConversationSession) (code : Option Int) :
    (streamQueryRun decode lines sess code).1 = (runStream decode lines sess).1 ∧
    ((streamQueryRun decode lines sess code).2.2 = Except.ok () ↔
      code = some 0 ∨ code = none) ∧
    (∀ c : Int, code = some c → c ≠ 0 →
      (streamQueryRun decode lines sess code).2.2
        = Except.error ("Claude CLI exited with code " ++ toString c)) := by
  refine ⟨rfl, ?_, ?_⟩
  · show exitOutcome code = Except.ok () ↔ _
    cases code with
    | none => simp [exitOutcome]
    | some c =>
      by_cases h : c = 0
      · simp [exitOutcome, h]
      · simp [exitOutcome, h]
  · intro c hc hne
    subst hc
    show exitOutcome (some c) = _
    simp [exitOutcome, hne]

/-- Witness for C2: a nonzero exit code after a consumed stream surfaces as
the terminal error. -/
theorem C2_witness :
    (streamQueryRun decodeEx [lineA] (some sessU) (some 7)).2.2
      = Except.error "Claude CLI exited with code 7" :=
  ((C2_exit_code_semantics decodeEx [lineA] (some sessU) (some 7)).2.2 7 rfl
    (by decide)).trans (by rfl)

/-! ## C8: session sweep -/

/-- The surviving entries of a sweep are exactly the unexpired ones. -/
theorem cleanup_eq_filter (now maxAge : Int)
    (l : List (String × ConversationSession)) :
    cleanupInactiveSessions now maxAge l
      = l.filter (fun p => !expired now maxAge p.2) := by
  induction l with
  | nil => rfl
  | cons p rest ih =>
    obtain ⟨k, s⟩ := p
    by_cases hexp : expired now maxAge s
    · simp [cleanupInactiveSessions, hexp, ih, List.filter_cons]
    · simp [cleanupInactiveSessions, hexp, ih, List.filter_cons]

/-- The internal counter ends up counting exactly the expired entries. -/
theorem cleanedCount_eq (now maxAge : Int)
    (l : List (String × ConversationSession)) :
    cleanedCount now maxAge l
      = (l.filter (fun p => expired now maxAge p.2)).length := by
  induction l with
  | nil => rfl
  | cons p rest ih =>
    obtain ⟨k, s⟩ := p
    by_cases hexp : expired now maxAge s
    · simp [cleanedCount, hexp, ih, List.filter_cons]
    · simp [cleanedCount, hexp, ih, List.filter_cons]

/-- A sweep over a map with no expired entry removes nothing and counts
zero. -/
theorem cleanup_of_none_expired (now maxAge : Int)
    (l : List (String × ConversationSession))
    (h : ∀ p ∈ l, expired now maxAge p.2 = false) :
    cleanupInactiveSessions now maxAge l = l ∧ cleanedCount now maxAge l = 0 := by
  induction l with
  | nil => exact ⟨rfl, rfl⟩
  | cons p rest ih =>
    have hp : expired now maxAge p.2 = false := h p (List.mem_cons_self p rest)
    have hrest := ih (fun q hq => h q (List.mem_cons_of_mem p hq))
    obtain ⟨k, s⟩ := p
    constructor
    · simp only [cleanupInactiveSessions]
      simp [hp, hrest.1]
    · simp only [cleanedCount]
      simp [hp, hrest.2]

/-- Counterexample to C8 as stated: on a map holding one expired and one
fresh record, the sweep removes the expired one and the internal counter
reads 1, but the method has no return statement — its return value is
`undefined`, never the count 1 that the claim says it returns. -/
theorem C8_counterexample :
    cleanupInactiveSessions 2000 1000
        [("k1", { sessU with lastActivity := 0 }),
         ("k2", { sessU with lastActivity := 1500 })]
      = [("k2", { sessU with lastActivity := 1500 })] ∧
    cleanedCount 2000 1000
        [("k1", { sessU with lastActivity := 0 }),
         ("k2", { sessU with lastActivity := 1500 })] = 1 ∧
    cleanupReturn = none ∧
    cleanupReturn ≠ some 1 := by
  decide

/-- C8 (amended): for every session map and every `maxAgeMs`, the sweep
removes exactly those records whose `now − lastActivity` exceeds `maxAgeMs`
and retains all others; the count of records removed exists only in an
internal variable (feeding a log line when positive) and the method returns
nothing (`undefined`), not that count; an immediately following second sweep
with the same `maxAgeMs` removes zero further records. -/
theorem C8_sweep (now maxAge : Int) (sessions : List (String × ConversationSession)) :
    cleanupInactiveSessions now maxAge sessions
      = sessions.filter (fun p => !expired now maxAge p.2) ∧
    cleanedCount now maxAge sessions
      = (sessions.filter (fun p => expired now maxAge p.2)).length ∧
    cleanupReturn = none ∧
    cleanupInactiveSessions now maxAge (cleanupInactiveSessions now maxAge sessions)
      = cleanupInactiveSessions now maxAge sessions ∧
    cleanedCount now maxAge (cleanupInactiveSessions now maxAge sessions) = 0 := by
  have hnone : ∀ p ∈ cleanupInactiveSessions now maxAge sessions,
      expired now maxAge p.2 = false := by
    intro p hp
    rw [cleanup_eq_filter] at hp
    have := List.of_mem_filter hp
    simpa using this
  have hid := cleanup_of_none_expired now maxAge
    (cleanupInactiveSessions now maxAge sessions) hnone
  exact ⟨cleanup_eq_filter now maxAge sessions, cleanedCount_eq now maxAge sessions,
    rfl, hid.1, hid.2⟩

/-! ## C6: schema-version mismatch on load -/

/-- C6: for every persisted document whose schema version differs from the
expected version, loading yields an empty store: no entry of the mismatched
document is ever merged into the in-memory map, regardless of the document's
contents. -/
theorem C6_version_mismatch (fsEx : String → Bool) (parseDate : String → Int)
    (data : PersistenceData) (h : data.version ≠ PERSISTENCE_VERSION) :
    loadFromDisk fsEx parseDate true (some data) = [] := by
  simp [loadFromDisk, h]

/-- Witness for C6: a version-0.9 document with a live entry loads as the
empty store. -/
theorem C6_witness : loadFromDisk (fun _ => true) (fun _ => 0) true (some dataV09) = [] :=
  C6_version_mismatch (fun _ => true) (fun _ => 0) dataV09 (by decide)

/-! ## C10: failed setWorkingDirectory has no effect -/

/-- C10: whenever `setWorkingDirectory` returns a failure result (directory
not found, not a directory, or a filesystem error), the in-memory
configuration map is exactly as it was before the call and no persistence
save is scheduled; the failure is a typed result value (the `catch` in the
source converts the only throwing call, `statSync`, into one), never an
exception to the caller. -/
theorem C10_failure_preserves_state (fsEx : String → Bool)
    (statDir : String → Option Bool) (baseDirectory cwd : String) (now : Int)
    (channelId directory : String) (threadTs userId : Option String) (configs : CfgMap)
    (h : (setWorkingDirectory fsEx statDir baseDirectory cwd now channelId directory
            threadTs userId configs).2.2.success = false) :
    (setWorkingDirectory fsEx statDir baseDirectory cwd now channelId directory
        threadTs userId configs).1 = configs ∧
    (setWorkingDirectory fsEx statDir baseDirectory cwd now channelId directory
        threadTs userId configs).2.1 = false := by
  unfold setWorkingDirectory at h ⊢
  cases hr : resolveDirectory fsEx baseDirectory cwd directory with
  | none => simp [hr]
  | some rp =>
    cases hs : statDir rp with
    | none => simp [hr, hs]
    | some isDir =>
      cases isDir with
      | false => simp [hr, hs]
      | true => simp [hr, hs] at h

/-- Witness for C10: setting a directory that exists nowhere fails and leaves
the empty store empty with no save scheduled. -/
theorem C10_witness :
    (setWorkingDirectory (fun _ => false) (fun _ => none) "" "/" 0 "C1" "/nope"
        none none []).1 = [] ∧
    (setWorkingDirectory (fun _ => false) (fun _ => none) "" "/" 0 "C1" "/nope"
        none none []).2.1 = false :=
  C10_failure_preserves_state (fun _ => false) (fun _ => none) "" "/" 0 "C1" "/nope"
    none none [] (by decide)

/-! ## C4: lookup precedence across scopes -/

/-- C4: for every store state containing both a thread-scoped entry
(channel+thread) and a channel- or DM-scoped entry for the same channel,
`getWorkingDirectory` called with that thread id returns the thread-scoped
directory; called with no thread id, or with a thread id that has no
thread-scoped entry, it returns the channel/DM-scoped directory, and the
thread id never contributes to the fallback key. -/
theorem C4_lookup_precedence (configs : CfgMap) (channelId ts : String)
    (userId : Option String) (cT cC : WorkingDirectoryConfig)
    (hts : ts ≠ "")
    (h1 : mget configs (getConfigKey channelId (some ts) none) = some cT)
    (h2 : mget configs (getConfigKey channelId none userId) = some cC) :
    getWorkingDirectory configs channelId (some ts) userId = some cT.directory ∧
    getWorkingDirectory configs channelId none userId = some cC.directory ∧
    (∀ ts2 : String, ts2 ≠ "" →
      mget configs (getConfigKey channelId (some ts2) none) = none →
      getWorkingDirectory configs channelId (some ts2) userId = some cC.directory) := by
  refine ⟨?_, ?_, ?_⟩
  · simp [getWorkingDirectory, truthy, hts, h1]
  · simp [getWorkingDirectory, truthy, h2]
  · intro ts2 hts2 hnone
    simp [getWorkingDirectory, truthy, hts2, hnone, h2]

/-- Witness for C4: with a thread entry under `C1-42` and a channel entry
under `C1`, the thread id `42` wins and the fallback ignores it. -/
theorem C4_witness :
    getWorkingDirectory
        [("C1-42", { channelId := "C1", threadTs := some "42", directory := "/t" }),
         ("C1", { channelId := "C1", directory := "/c" })] "C1" (some "42") none
      = some "/t" ∧
    getWorkingDirectory
        [("C1-42", { channelId := "C1", threadTs := some "42", directory := "/t" }),
         ("C1", { channelId := "C1", directory := "/c" })] "C1" none none
      = some "/c" ∧
    getWorkingDirectory
        [("C1-42", { channelId := "C1", threadTs := some "42", directory := "/t" }),
         ("C1", { channelId := "C1", directory := "/c" })] "C1" (some "7") none
      = some "/c" := by
  have h := C4_lookup_precedence
    [("C1-42", { channelId := "C1", threadTs := some "42", directory := "/t" }),
     ("C1", { channelId := "C1", directory := "/c" })] "C1" "42" none
    { channelId := "C1", threadTs := some "42", directory := "/t" }
    { channelId := "C1", directory := "/c" }
    (by decide) (by decide) (by decide)
  exact ⟨h.1, h.2.1, h.2.2 "7" (by decide) (by decide)⟩

/-! ## C5: absolute-path resolution -/

/-- C5 (amended): for every absolute path input `p` that exists on disk,
`resolveDirectory` returns `path.resolve(p)` — the normalized form of `p`,
equal to `p` exactly when `p` is already in normal form; for every absolute
path input that does not exist, it fails with the "not found" result
(`none`), never any other result. -/
theorem C5_absolute_resolution (fsEx : String → Bool) (baseDirectory cwd p : String)
    (habs : isAbsolute p = true) :
    (fsEx p = true → resolveDirectory fsEx baseDirectory cwd p = some (pathResolve cwd p)) ∧
    (fsEx p = false → resolveDirectory fsEx baseDirectory cwd p = none) := by
  constructor <;> intro h <;> simp [resolveDirectory, habs, h]

/-- Counterexample to C5 as stated: the absolute path `/tmp/` (with a
trailing slash) exists on a disk on which `fs.existsSync "/tmp/"` holds, yet
`resolveDirectory` returns the normalized `/tmp`, not the input `/tmp/`. -/
theorem C5_counterexample :
    isAbsolute "/tmp/" = true ∧
    (fun q => q == "/tmp/") "/tmp/" = true ∧
    resolveDirectory (fun q => q == "/tmp/") "" "/" "/tmp/" = some "/tmp" ∧
    ("/tmp" : String) ≠ "/tmp/" := by
  decide

/-- Witness for C5: an existing normalized absolute path resolves to itself
and a missing absolute path resolves to `none`. -/
theorem C5_witness :
    resolveDirectory (fun q => q == "/a") "" "/" "/a" = some "/a" ∧
    resolveDirectory (fun q => q == "/a") "" "/" "/b" = none := by
  constructor
  · exact ((C5_absolute_resolution (fun q => q == "/a") "" "/" "/a" (by decide)).1
      (by decide)).trans (by decide)
  · exact (C5_absolute_resolution (fun q => q == "/a") "" "/" "/b" (by decide)).2 (by decide)

/-! ## C1: session-identifier capture and resume -/

/-- Unfolding `foldInits` over the head message. -/
theorem foldInits_cons (start : Option String) (m : SDKMessage) (t : List SDKMessage) :
    foldInits start (m :: t) = foldInits (if initMatches m then m.session_id else start) t := by
  simp [foldInits, List.foldl_cons]

/-- A message list without init messages leaves the identifier unchanged. -/
theorem foldInits_no_init : ∀ (t : List SDKMessage) (start : Option String),
    t.filter initMatches = [] → foldInits start t = start := by
  intro t
  induction t with
  | nil => intro start _; rfl
  | cons m0 t ih =>
    intro start h
    by_cases h0 : initMatches m0
    · simp [List.filter_cons, h0] at h
    · rw [foldInits_cons, if_neg h0]
      exact ih start (by simpa [List.filter_cons, h0] using h)

/-- `foldInits` computes the `session_id` of the last init message. -/
theorem foldInits_last : ∀ (msgs : List SDKMessage) (start : Option String) (m : SDKMessage),
    (msgs.filter initMatches).getLast? = some m → foldInits start msgs = m.session_id := by
  intro msgs
  induction msgs with
  | nil => intro start m h; simp at h
  | cons m0 t ih =>
    intro start m h
    rw [foldInits_cons]
    by_cases h0 : initMatches m0
    · rw [if_pos h0]
      rw [List.filter_cons_of_pos h0] at h
      cases hft : t.filter initMatches with
      | nil =>
        rw [hft] at h
        simp at h
        rw [← h]
        exact foldInits_no_init t m0.session_id hft
      | cons x xs =>
        rw [hft, List.getLast?_cons_cons] at h
        exact ih m0.session_id m (by rw [hft]; exact h)
    · rw [if_neg h0]
      exact ih start m (by simpa [List.filter_cons, h0] using h)

/-- After the stream, the supplied session record differs from the original
only in `sessionId`, which holds the running init-capture fold. -/
theorem runStream_snd_some (decode : String → Option SDKMessage) :
    ∀ (lines : List String) (s : ConversationSession),
    (runStream decode lines (some s)).2
      = some { s with sessionId := foldInits s.sessionId (runStream decode lines (some s)).1 } := by
  intro lines
  induction lines with
  | nil => intro s; simp [runStream, foldInits]
  | cons line rest ih =>
    intro s
    by_cases htrim : jsTrim line = ""
    · simpa [runStream, htrim] using ih s
    · cases hdec : decode line with
      | none => simpa [runStream, htrim, hdec] using ih s
      | some m =>
        by_cases hinit : initMatches m
        · simpa [runStream, htrim, hdec, processInit, hinit, foldInits_cons]
            using ih { s with sessionId := m.session_id }
        · simpa [runStream, htrim, hdec, processInit, hinit, foldInits_cons] using ih s

/-- With a truthy resumable identifier, the next argument list carries the
`--resume` pair right before the prompt. -/
theorem buildArgs_resume (wd : Option String) (sc : Option SlackContext)
    (names : List String) (json : String) (tools : List String) (x prompt : String)
    (hx : x ≠ "") :
    buildArgs wd sc names json tools (some x) prompt
      = buildArgsCommon wd sc names json tools ++ ["--resume", x] ++ [prompt] := by
  simp [buildArgs, hx]

/-- C1 (amended): for every subprocess stdout stream, when a session record
`S` is supplied to `streamQuery`, the resumable session identifier stored in
`S` after the stream is consumed equals the `session_id` of the **last**
message with `type="system"` and `subtype="init"` (each init message
overwrites the stored identifier; this is the only mutation `streamQuery`
performs on session state), and when that identifier is present and
non-empty, a subsequent `streamQuery` call using `S` passes a `--resume`
argument equal to it. -/
theorem C1_session_capture (decode : String → Option SDKMessage)
    (lines : List String) (s : ConversationSession) :
    (runStream decode lines (some s)).2
      = some { s with sessionId := foldInits s.sessionId (runStream decode lines (some s)).1 } ∧
    (∀ m, ((runStream decode lines (some s)).1.filter initMatches).getLast? = some m →
      foldInits s.sessionId (runStream decode lines (some s)).1 = m.session_id) ∧
    (∀ (x : String) (wd : Option String) (sc : Option SlackContext)
        (names : List String) (json : String) (tools : List String) (prompt : String),
      foldInits s.sessionId (runStream decode lines (some s)).1 = some x → x ≠ "" →
      ∃ a b, buildArgs wd sc names json tools (some x) prompt
        = a ++ ["--resume", x] ++ b) := by
  refine ⟨runStream_snd_some decode lines s,
          fun m h => foldInits_last (runStream decode lines (some s)).1 s.sessionId m h,
          ?_⟩
  intro x wd sc names json tools prompt _ hx
  exact ⟨buildArgsCommon wd sc names json tools, [prompt],
    buildArgs_resume wd sc names json tools x prompt hx⟩

/-- Counterexample to C1 as stated: a stream with two init messages (session
identifiers `A` then `B`) leaves the *second* identifier in the session
record, not that of the first init message. -/
theorem C1_counterexample :
    ((runStream decodeEx [lineA, lineB] (some sessU)).1.filter initMatches).head? = some msgA ∧
    msgA.session_id = some "A" ∧
    (runStream decodeEx [lineA, lineB] (some sessU)).2
      = some { sessU with sessionId := some "B" } ∧
    (some "B" : Option String) ≠ msgA.session_id := by
  decide

/-- Witness for C1: on the two-init stream the stored identifier is `B` and
the follow-up invocation carries `--resume B`. -/
theorem C1_witness :
    (runStream decodeEx [lineA, lineB] (some sessU)).2
      = some { sessU with sessionId := some "B" } ∧
    (∃ a b, buildArgs none none [] "" [] (some "B") "hi" = a ++ ["--resume", "B"] ++ b) := by
  have h := C1_session_capture decodeEx [lineA, lineB] sessU
  exact ⟨h.1.trans (by decide),
         h.2.2 "B" none none [] "" [] "hi" (by decide) (by decide)⟩

/-! ## C3: a malformed line is skipped, not fatal -/

/-- The yielded message sequence is the per-line decode of nonblank lines,
in arrival order, independent of the supplied session. -/
theorem runStream_fst (decode : String → Option SDKMessage) :
    ∀ (lines : List String) (sess : Option ConversationSession),
    (runStream decode lines sess).1
      = lines.filterMap (fun l => if jsTrim l ≠ "" then decode l else none) := by
  intro lines
  induction lines with
  | nil => intro sess; rfl
  | cons line rest ih =>
    intro sess
    by_cases htrim : jsTrim line = ""
    · simp [runStream, htrim, ih, List.filterMap_cons]
    · cases hdec : decode line with
      | none => simp [runStream, htrim, hdec, ih, List.filterMap_cons]
      | some m => simp [runStream, htrim, hdec, ih, List.filterMap_cons]

/-- Over a block of valid (nonblank, decodable) lines the blank-line guard is
inert and every line yields a message. -/
theorem filterMap_valid_lines (decode : String → Option SDKMessage) :
    ∀ (xs : List String), (∀ l ∈ xs, jsTrim l ≠ "" ∧ (decode l).isSome) →
    xs.filterMap (fun l => if jsTrim l ≠ "" then decode l else none) = xs.filterMap decode ∧
    (xs.filterMap decode).length = xs.length := by
  intro xs
  induction xs with
  | nil => intro _; exact ⟨rfl, rfl⟩
  | cons l rest ih =>
    intro h
    obtain ⟨h1, h2⟩ := h l (List.mem_cons_self l rest)
    obtain ⟨m, hm⟩ := Option.isSome_iff_exists.mp h2
    have hrest := ih (fun q hq => h q (List.mem_cons_of_mem l hq))
    have hl : (if jsTrim l ≠ "" then decode l else none) = some m := by rw [if_pos h1, hm]
    constructor
    · rw [List.filterMap_cons, List.filterMap_cons, hl, hm]
      show m :: List.filterMap (fun q => if jsTrim q ≠ "" then decode q else none) rest
          = m :: List.filterMap decode rest
      rw [hrest.1]
    · rw [List.filterMap_cons, hm]
      show (m :: List.filterMap decode rest).length = (l :: rest).length
      rw [List.length_cons, List.length_cons, hrest.2]

/-- C3: for every subprocess stdout stream of `N` lines in which exactly one
line is not decodable as a protocol message and the rest are valid,
`streamQuery` yields exactly `N−1` messages, in the same relative order as
the input lines, and the query still completes normally when the exit code
is `0` — the decode failure is never fatal to the stream. (Valid lines are
nonblank: `JSON.parse` never succeeds on whitespace.) -/
theorem C3_malformed_line (decode : String → Option SDKMessage)
    (xs ys : List String) (b : String) (sess : Option ConversationSession)
    (hxs : ∀ l ∈ xs, jsTrim l ≠ "" ∧ (decode l).isSome)
    (hys : ∀ l ∈ ys, jsTrim l ≠ "" ∧ (decode l).isSome)
    (hb : decode b = none) :
    (streamQueryRun decode (xs ++ b :: ys) sess (some 0)).1
      = xs.filterMap decode ++ ys.filterMap decode ∧
    (streamQueryRun decode (xs ++ b :: ys) sess (some 0)).1.length
      = (xs ++ b :: ys).length - 1 ∧
    (streamQueryRun decode (xs ++ b :: ys) sess (some 0)).2.2 = Except.ok () := by
  have hbnone : (if jsTrim b ≠ "" then decode b else none) = none := by
    by_cases h : jsTrim b = "" <;> simp [h, hb]
  have hfst : (streamQueryRun decode (xs ++ b :: ys) sess (some 0)).1
      = xs.filterMap decode ++ ys.filterMap decode := by
    show (runStream decode (xs ++ b :: ys) sess).1 = _
    rw [runStream_fst, List.filterMap_append, List.filterMap_cons, hbnone,
      (filterMap_valid_lines decode xs hxs).1, (filterMap_valid_lines decode ys hys).1]
  refine ⟨hfst, ?_, rfl⟩
  rw [hfst]
  simp only [List.length_append, List.length_cons,
    (filterMap_valid_lines decode xs hxs).2, (filterMap_valid_lines decode ys hys).2]
  omega

/-- Witness for C3: a three-line stream whose middle line is malformed yields
the two valid messages in order and completes successfully. -/
theorem C3_witness :
    (streamQueryRun decodeEx [lineA, "oops", lineB] (some sessU) (some 0)).1 = [msgA, msgB] ∧
    (streamQueryRun decodeEx [lineA, "oops", lineB] (some sessU) (some 0)).1.length = 2 ∧
    (streamQueryRun decodeEx [lineA, "oops", lineB] (some sessU) (some 0)).2.2 = Except.ok () := by
  have h := C3_malformed_line decodeEx [lineA] [lineB] "oops" (some sessU)
    (by decide) (by decide) (by decide)
  exact ⟨h.1.trans (by decide), h.2.1.trans (by decide), h.2.2⟩

/-! ## C7: debounce coalesces a burst into one trailing write -/

/-- A mutation that schedules a save replaces the pending timer by one firing
a debounce window after it, applies its pure map effect, and writes
nothing. -/
theorem applyMutation_sched (fs : FSModel) (base cwd : String) (t : Int) (op : MutOp)
    (st : StoreState) (h : (applyMutation fs base cwd t op st).2 = true) :
    (applyMutation fs base cwd t op st).1
      = ⟨applyOp fs base cwd t op st.configs, some (t + SAVE_DEBOUNCE_MS), st.writes⟩ := by
  cases op with
  | mset ch dir ts uid =>
    cases hs : (setWorkingDirectory fs.fsEx fs.statDir base cwd t ch dir ts uid st.configs).2.1 with
    | false => simp [applyMutation, hs] at h
    | true => simp [applyMutation, applyOp, hs]
  | mremove ch ts uid =>
    cases hs : (removeWorkingDirectory st.configs ch ts uid).2 with
    | false => simp [applyMutation, hs] at h
    | true => simp [applyMutation, applyOp, hs]

/-- Invariant step for a burst: starting with a pending timer armed by the
previous mutation and an empty window before the next one, the run performs
no write until the final flush, which writes the fully mutated map once, a
debounce window after the last mutation. -/
theorem runMutations_inv (fs : FSModel) (base cwd : String) :
    ∀ (evs : List (Int × MutOp)) (prev : Int × MutOp) (cfgs : CfgMap)
      (ws : List (Int × CfgMap)),
    List.Chain (fun a b => a.1 ≤ b.1 ∧ b.1 < a.1 + SAVE_DEBOUNCE_MS) prev evs →
    schedOk fs base cwd evs ⟨cfgs, some (prev.1 + SAVE_DEBOUNCE_MS), ws⟩ = true →
    flushFinal (runMutations fs base cwd evs ⟨cfgs, some (prev.1 + SAVE_DEBOUNCE_MS), ws⟩)
      = ⟨applyOps fs base cwd evs cfgs, none,
         ws ++ [((evs.getLastD prev).1 + SAVE_DEBOUNCE_MS, applyOps fs base cwd evs cfgs)]⟩ := by
  intro evs
  induction evs with
  | nil =>
    intro prev cfgs ws _ _
    simp [flushFinal, runMutations, applyOps, List.getLastD]
  | cons e rest ih =>
    obtain ⟨t, op⟩ := e
    intro prev cfgs ws hchain hsched
    rw [List.chain_cons] at hchain
    obtain ⟨⟨hle, hlt⟩, hchain2⟩ := hchain
    have hfire : fireDue t ⟨cfgs, some (prev.1 + SAVE_DEBOUNCE_MS), ws⟩
        = ⟨cfgs, some (prev.1 + SAVE_DEBOUNCE_MS), ws⟩ := by
      have hnle : ¬ (prev.1 + SAVE_DEBOUNCE_MS ≤ t) := by omega
      simp [fireDue, hnle]
    simp only [schedOk, hfire] at hsched
    rw [Bool.and_eq_true] at hsched
    obtain ⟨hb, hrest⟩ := hsched
    have happ := applyMutation_sched fs base cwd t op
      ⟨cfgs, some (prev.1 + SAVE_DEBOUNCE_MS), ws⟩ hb
    rw [happ] at hrest
    have hres := ih (t, op) (applyOp fs base cwd t op cfgs) ws hchain2 hrest
    dsimp only at hres
    simp only [runMutations, hfire, happ, hres, applyOps, List.getLastD_cons]

/-- C7: for every sequence of `M ≥ 1` set/remove mutations, all effective
(each schedules a save) and all issued within the 1-second debounce window
of their predecessor, exactly one disk write occurs; it happens only at the
end of the quiet window — `SAVE_DEBOUNCE_MS` after the `M`-th mutation — and
the written document reflects the full map state after the `M`-th mutation.
Each new mutation cancels and reschedules the single pending timer (the
store holds one `saveTimer`), so timers never accumulate. -/
theorem C7_debounced_single_write (fs : FSModel) (base cwd : String) (cfgs0 : CfgMap)
    (e : Int × MutOp) (rest : List (Int × MutOp))
    (hchain : List.Chain' (fun a b => a.1 ≤ b.1 ∧ b.1 < a.1 + SAVE_DEBOUNCE_MS) (e :: rest))
    (hsched : schedOk fs base cwd (e :: rest) ⟨cfgs0, none, []⟩ = true) :
    (flushFinal (runMutations fs base cwd (e :: rest) ⟨cfgs0, none, []⟩)).writes
      = [(((e :: rest).getLastD e).1 + SAVE_DEBOUNCE_MS,
          applyOps fs base cwd (e :: rest) cfgs0)] ∧
    (flushFinal (runMutations fs base cwd (e :: rest) ⟨cfgs0, none, []⟩)).configs
      = applyOps fs base cwd (e :: rest) cfgs0 := by
  obtain ⟨t, op⟩ := e
  have hchain2 : List.Chain (fun a b => a.1 ≤ b.1 ∧ b.1 < a.1 + SAVE_DEBOUNCE_MS)
      (t, op) rest := hchain
  have hfire : fireDue t ⟨cfgs0, none, []⟩ = ⟨cfgs0, none, []⟩ := by simp [fireDue]
  simp only [schedOk, hfire] at hsched
  rw [Bool.and_eq_true] at hsched
  obtain ⟨hb, hrest⟩ := hsched
  have happ := applyMutation_sched fs base cwd t op ⟨cfgs0, none, []⟩ hb
  rw [happ] at hrest
  have hres := runMutations_inv fs base cwd rest (t, op)
    (applyOp fs base cwd t op cfgs0) [] hchain2 hrest
  dsimp only at hres
  have happ2 : (applyMutation fs base cwd t op ⟨cfgs0, none, []⟩).1
      = ⟨applyOp fs base cwd t op cfgs0, some (t + SAVE_DEBOUNCE_MS), []⟩ := happ
  have hstep : runMutations fs base cwd ((t, op) :: rest) ⟨cfgs0, none, []⟩
      = runMutations fs base cwd rest
          ⟨applyOp fs base cwd t op cfgs0, some (t + SAVE_DEBOUNCE_MS), []⟩ := by
    simp only [runMutations, hfire, happ2]
  rw [hstep, hres]
  constructor
  · rw [List.nil_append, List.getLastD_cons]
    rfl
  · rfl

/-- Witness for C7: two effective mutations 500 ms apart produce exactly one
write, 1000 ms after the second one, of the final (here empty again) map. -/
theorem C7_witness :
    (flushFinal (runMutations fsW "" "/"
        [(0, MutOp.mset "C1" "/w" none none), (500, MutOp.mremove "C1" none none)]
        ⟨[], none, []⟩)).writes = [(1500, [])] ∧
    (flushFinal (runMutations fsW "" "/"
        [(0, MutOp.mset "C1" "/w" none none), (500, MutOp.mremove "C1" none none)]
        ⟨[], none, []⟩)).configs = [] := by
  have h := C7_debounced_single_write fsW "" "/" []
    (0, MutOp.mset "C1" "/w" none none) [(500, MutOp.mremove "C1" none none)]
    (show List.Chain _ _ _ from List.Chain.cons (by decide) List.Chain.nil) (by decide)
  exact ⟨h.1.trans (by decide), h.2.trans (by decide)⟩

/-! ## C9: the set-command grammar -/

/-- Counterexample to C9 as stated: the source regular expression makes the
`[- ]` separator optional (`working[- ]?directory`), so
`set workingdirectory /tmp` is accepted by the code although it lies outside
the claim's grammar `set (cwd|dir|directory|working[- ]directory) <value>`. -/
theorem C9_counterexample :
    parseSetCommand "set workingdirectory /tmp" = some "/tmp" ∧
    claimParseSet "set workingdirectory /tmp" = none := by
  decide

/-- The character list of the literal `cwd`. -/
theorem cwd_data : "cwd".data = ['c', 'w', 'd'] := by decide

/-- The character list of the literal `set`. -/
theorem set_data : "set".data = ['s', 'e', 't'] := by decide

/-- `directory` is `dir` followed by `ectory`. -/
theorem directory_split : "directory".data = "dir".data ++ "ectory".data := by decide

/-- Consuming a pattern is stable under extending the input on the right. -/
theorem stripCI_append (pat : List Char) :
    ∀ (s t r : List Char), stripCI pat s = some t → stripCI pat (s ++ r) = some (t ++ r) := by
  induction pat with
  | nil =>
    intro s t r h
    simp only [stripCI] at h ⊢
    cases h
    rfl
  | cons p ps ih =>
    intro s t r h
    cases s with
    | nil => exact absurd h (by simp [stripCI])
    | cons c cs =>
      simp only [List.cons_append, stripCI] at h ⊢
      by_cases hc : c.toLower = p.toLower
      · rw [if_pos hc] at h ⊢
        exact ih cs t r h
      · rw [if_neg hc] at h
        exact absurd h (by simp)

/-- A successful pattern consumption splits the input into a case-insensitive
rendering of the pattern and the remainder. -/
theorem stripCI_decomp (pat : List Char) :
    ∀ (s r : List Char), stripCI pat s = some r →
    ∃ pre, s = pre ++ r ∧ stripCI pat pre = some [] := by
  induction pat with
  | nil =>
    intro s r h
    simp only [stripCI] at h
    cases h
    exact ⟨[], rfl, rfl⟩
  | cons p ps ih =>
    intro s r h
    cases s with
    | nil => exact absurd h (by simp [stripCI])
    | cons c cs =>
      simp only [stripCI] at h
      by_cases hc : c.toLower = p.toLower
      · rw [if_pos hc] at h
        obtain ⟨pre, hpre, hstr⟩ := ih cs r h
        refine ⟨c :: pre, by rw [hpre]; rfl, ?_⟩
        simp only [stripCI]
        rw [if_pos hc]
        exact hstr
      · rw [if_neg hc] at h
        exact absurd h (by simp)

/-- Consuming a nonempty pattern forces a fold-matching head character. -/
theorem stripCI_cons_inv (p : Char) (ps : List Char) (s r : List Char)
    (h : stripCI (p :: ps) s = some r) :
    ∃ c cs, s = c :: cs ∧ c.toLower = p.toLower ∧ stripCI ps cs = some r := by
  cases s with
  | nil => exact absurd h (by simp [stripCI])
  | cons c cs =>
    simp only [stripCI] at h
    by_cases hc : c.toLower = p.toLower
    · rw [if_pos hc] at h
      exact ⟨c, cs, rfl, hc, h⟩
    · rw [if_neg hc] at h
      exact absurd h (by simp)

/-- Consuming a concatenated pattern factors through the midpoint. -/
theorem stripCI_split (p1 p2 : List Char) :
    ∀ (s r : List Char), stripCI (p1 ++ p2) s = some r →
    ∃ m, stripCI p1 s = some m ∧ stripCI p2 m = some r := by
  induction p1 with
  | nil => intro s r h; exact ⟨s, rfl, h⟩
  | cons p ps ih =>
    intro s r h
    cases s with
    | nil => exact absurd h (by simp [stripCI])
    | cons c cs =>
      simp only [List.cons_append, stripCI] at h
      by_cases hc : c.toLower = p.toLower
      · rw [if_pos hc] at h
        obtain ⟨m, h1, h2⟩ := ih cs r h
        refine ⟨m, ?_, h2⟩
        simp only [stripCI]
        rw [if_pos hc]
        exact h1
      · rw [if_neg hc] at h
        exact absurd h (by simp)

/-- A case-insensitive rendering consumes to exactly the appended rest. -/
theorem ciIs_strip (pre pat r : List Char) (h : stripCI pat pre = some []) :
    stripCI pat (pre ++ r) = some r := by
  have := stripCI_append pat pre [] r h
  simpa using this

/-- Whitespace characters are untouched by lower-casing (none is an upper
case basic latin letter). -/
theorem jsWs_toLower (c : Char) (h : jsWs c = true) : c.toLower = c := by
  simp only [jsWs, Bool.or_eq_true, decide_eq_true_eq, Bool.and_eq_true] at h
  have hn : ¬(c.toNat ≥ 65 ∧ c.toNat ≤ 90) := by
    rcases h with
      ((((((((((((((h | h) | h) | h) | h) | h) | h) | h) | h) | h) | h) | h) | h) | h) | h)
    all_goals omega
  unfold Char.toLower
  rw [if_neg hn]

/-- A character that folds onto a non-whitespace lower-case letter is not
whitespace. -/
theorem fold_letter_not_ws (c p : Char) (hcp : c.toLower = p.toLower)
    (hp : jsWs p.toLower = false) : jsWs c = false := by
  by_contra hc
  have hc' : jsWs c = true := by revert hc; cases jsWs c <;> simp
  have hfix := jsWs_toLower c hc'
  rw [hfix] at hcp
  rw [hcp] at hc'
  rw [hc'] at hp
  simp at hp

/-- Greedy backtracking soundness: a hit identifies the largest viable
whitespace consumption. -/
theorem tryDrops_sound (k : List Char → Option (List Char)) :
    ∀ (n : Nat) (rest r : List Char), tryDrops k n rest = some r →
    ∃ j, 1 ≤ j ∧ j ≤ n ∧ k (rest.drop j) = some r ∧
      ∀ j2, j < j2 → j2 ≤ n → k (rest.drop j2) = none := by
  intro n
  induction n with
  | zero => intro rest r h; exact absurd h (by simp [tryDrops])
  | succ m ih =>
    intro rest r h
    simp only [tryDrops] at h
    cases hk : k (rest.drop (m + 1)) with
    | some r2 =>
      rw [hk] at h
      cases h
      exact ⟨m + 1, by omega, Nat.le_refl _, hk, fun j2 h1 h2 => absurd (by omega : False) id⟩
    | none =>
      rw [hk] at h
      obtain ⟨j, hj1, hj2, hjk, hmax⟩ := ih rest r h
      refine ⟨j, hj1, by omega, hjk, ?_⟩
      intro j2 hgt hle
      by_cases hj2m : j2 = m + 1
      · rw [hj2m]; exact hk
      · exact hmax j2 hgt (by omega)

/-- Greedy backtracking completeness: any viable consumption in range makes
the search succeed. -/
theorem tryDrops_complete (k : List Char → Option (List Char)) :
    ∀ (n : Nat) (rest : List Char) (j : Nat) (r0 : List Char),
    1 ≤ j → j ≤ n → k (rest.drop j) = some r0 →
    ∃ r, tryDrops k n rest = some r := by
  intro n
  induction n with
  | zero => intro rest j r0 h1 h2 _; exact absurd (by omega : False) id
  | succ m ih =>
    intro rest j r0 h1 h2 h3
    simp only [tryDrops]
    cases hk : k (rest.drop (m + 1)) with
    | some r2 => exact ⟨r2, rfl⟩
    | none =>
      have hj : j ≤ m := by
        by_cases hje : j = m + 1
        · rw [hje] at h3; rw [h3] at hk; exact absurd hk (by simp)
        · omega
      exact ih rest j r0 h1 hj h3

/-- `takeWhile` passes a block of satisfying characters. -/
theorem takeWhile_append_all (p : Char → Bool) :
    ∀ (w t : List Char), (∀ c ∈ w, p c = true) →
    (w ++ t).takeWhile p = w ++ t.takeWhile p := by
  intro w
  induction w with
  | nil => intro t _; rfl
  | cons c cs ih =>
    intro t h
    have hc := h c (List.mem_cons_self c cs)
    simp [List.takeWhile_cons, hc, ih t (fun q hq => h q (List.mem_cons_of_mem c hq))]

/-- A leading whitespace block bounds the maximal whitespace run from
below. -/
theorem ws_run_len_ge (w t : List Char) (hw : ∀ c ∈ w, jsWs c = true) :
    w.length ≤ ((w ++ t).takeWhile jsWs).length := by
  rw [takeWhile_append_all jsWs w t hw, List.length_append]
  omega

/-- A whitespace block followed by a non-whitespace character is exactly the
maximal whitespace run. -/
theorem ws_run_exact (w : List Char) (c : Char) (t : List Char)
    (hw : ∀ x ∈ w, jsWs x = true) (hc : jsWs c = false) :
    ((w ++ c :: t).takeWhile jsWs).length = w.length := by
  rw [takeWhile_append_all jsWs w (c :: t) hw]
  simp [List.takeWhile_cons, hc]

/-- Every character within the maximal whitespace run is whitespace. -/
theorem take_all_ws (l : List Char) (j : Nat) (hj : j ≤ (l.takeWhile jsWs).length) :
    ∀ c ∈ l.take j, jsWs c = true := by
  intro c hc
  have htake : l.take j = (l.takeWhile jsWs).take j := by
    conv_lhs => rw [← List.takeWhile_append_dropWhile (p := jsWs) (l := l)]
    rw [List.take_append_eq_append_take, Nat.sub_eq_zero_of_le hj, List.take_zero,
      List.append_nil]
  rw [htake] at hc
  exact List.mem_takeWhile_imp (List.mem_of_mem_take hc)

/-- `dropWhile` swallows a leading block of satisfying characters. -/
theorem dropWhile_ws_append : ∀ (w t : List Char), (∀ c ∈ w, jsWs c = true) →
    (w ++ t).dropWhile jsWs = t.dropWhile jsWs := by
  intro w
  induction w with
  | nil => intro t _; rfl
  | cons c cs ih =>
    intro t h
    have hc := h c (List.mem_cons_self c cs)
    simp [List.dropWhile_cons, hc, ih t (fun q hq => h q (List.mem_cons_of_mem c hq))]

/-- Trimming ignores a leading whitespace block. -/
theorem jsTrimL_ws_left (w t : List Char) (hw : ∀ c ∈ w, jsWs c = true) :
    jsTrimL (w ++ t) = jsTrimL t := by
  unfold jsTrimL
  rw [dropWhile_ws_append w t hw]

/-- Dropping more or fewer characters inside the maximal whitespace run does
not change the trimmed remainder. -/
theorem drop_trim_eq (rest : List Char) (a b : Nat) (hab : a ≤ b)
    (hb : b ≤ (rest.takeWhile jsWs).length) :
    jsTrimL (rest.drop a) = jsTrimL (rest.drop b) := by
  have h1 : (rest.drop a).take (b - a) ++ (rest.drop a).drop (b - a) = rest.drop a :=
    List.take_append_drop _ _
  have h2 : (rest.drop a).drop (b - a) = rest.drop b := by
    rw [List.drop_drop]
    congr 1
    omega
  rw [← h1, h2]
  apply jsTrimL_ws_left
  intro c hc
  have h3 : (rest.drop a).take (b - a) = (rest.take b).drop a := by
    rw [List.drop_take]
  rw [h3] at hc
  exact take_all_ws rest b hb c (List.mem_of_mem_drop hc)

/-- The character list of the literal `dir`. -/
theorem dir_data : "dir".data = ['d', 'i', 'r'] := by decide

/-- The character list of the literal `directory`. -/
theorem directory_data : "directory".data = ['d', 'i', 'r', 'e', 'c', 't', 'o', 'r', 'y'] := by
  decide

/-- The character list of the literal `working`. -/
theorem working_data : "working".data = ['w', 'o', 'r', 'k', 'i', 'n', 'g'] := by decide

/-- The character list of the literal `ectory`. -/
theorem ectory_data : "ectory".data = ['e', 'c', 't', 'o', 'r', 'y'] := by decide

/-- An anchored-capture hit is the whole nonempty line-terminator-free
input. -/
theorem dotCapture_eq_some (s r : List Char) (h : dotCapture s = some r) :
    r = s ∧ s ≠ [] ∧ (∀ c ∈ s, jsDot c = true) := by
  unfold dotCapture at h
  by_cases hc : (!s.isEmpty && s.all jsDot) = true
  · rw [if_pos hc] at h
    cases h
    rw [Bool.and_eq_true] at hc
    obtain ⟨h1, h2⟩ := hc
    refine ⟨rfl, ?_, ?_⟩
    · intro hnil; rw [hnil] at h1; simp at h1
    · intro c hcm
      exact List.all_eq_true.mp h2 c hcm
  · rw [if_neg hc] at h
    exact absurd h (by simp)

/-- A nonempty line-terminator-free input is an anchored-capture hit. -/
theorem dotCapture_of (s : List Char) (h1 : s ≠ []) (h2 : ∀ c ∈ s, jsDot c = true) :
    dotCapture s = some s := by
  unfold dotCapture
  rw [if_pos]
  rw [Bool.and_eq_true]
  constructor
  · cases s with
    | nil => exact absurd rfl h1
    | cons c cs => simp [List.isEmpty]
  · exact List.all_eq_true.mpr h2

/-- `\s+(.+)$` soundness: the capture is everything past a nonempty
whitespace consumption inside the maximal run. -/
theorem wsCapture_sound (rest r : List Char) (h : wsCapture rest = some r) :
    ∃ j, 1 ≤ j ∧ j ≤ (rest.takeWhile jsWs).length ∧ r = rest.drop j ∧
      r ≠ [] ∧ (∀ c ∈ r, jsDot c = true) := by
  unfold wsCapture wsPlus at h
  obtain ⟨j, hj1, hj2, hjk, _⟩ := tryDrops_sound dotCapture _ rest r h
  obtain ⟨hr, hne, hdot⟩ := dotCapture_eq_some _ _ hjk
  refine ⟨j, hj1, hj2, hr, ?_, ?_⟩
  · rw [hr]; exact hne
  · rw [hr]; exact hdot

/-- `\s+(.+)$` completeness: on whitespace followed by a value the match
succeeds and the capture trims to the same string as the value (greediness
moves only whitespace across the boundary). -/
theorem wsCapture_complete (ws2 val : List Char) (h1 : ws2 ≠ [])
    (h2 : ∀ c ∈ ws2, jsWs c = true) (h3 : val ≠ []) (h4 : ∀ c ∈ val, jsDot c = true) :
    ∃ cap, wsCapture (ws2 ++ val) = some cap ∧ jsTrimL cap = jsTrimL val := by
  have hdrop : (ws2 ++ val).drop ws2.length = val := List.drop_left ws2 val
  have hj0 : dotCapture ((ws2 ++ val).drop ws2.length) = some val := by
    rw [hdrop]; exact dotCapture_of val h3 h4
  have hl : 1 ≤ ws2.length := List.length_pos.mpr h1
  have hlen : ws2.length ≤ ((ws2 ++ val).takeWhile jsWs).length := ws_run_len_ge ws2 val h2
  obtain ⟨cap, hcap⟩ := tryDrops_complete dotCapture _ (ws2 ++ val) ws2.length val hl hlen hj0
  obtain ⟨j, hj1, hj2, hjk, hmax⟩ := tryDrops_sound dotCapture _ (ws2 ++ val) cap hcap
  have hjge : ws2.length ≤ j := by
    by_contra hlt
    push_neg at hlt
    have hnone := hmax ws2.length hlt hlen
    rw [hnone] at hj0
    exact absurd hj0 (by simp)
  obtain ⟨hr, _, _⟩ := dotCapture_eq_some _ _ hjk
  refine ⟨cap, ?_, ?_⟩
  · unfold wsCapture wsPlus
    exact hcap
  · rw [hr]
    have heq := drop_trim_eq (ws2 ++ val) ws2.length j hjge hj2
    rw [← heq, hdrop]

/-- A keyword branch hit decomposes into keyword and captured tail. -/
theorem kwBranch_sound (pat s r : List Char) (h : kwBranch pat s = some r) :
    ∃ kw rest2, s = kw ++ rest2 ∧ stripCI pat kw = some [] ∧ wsCapture rest2 = some r := by
  unfold kwBranch at h
  cases hs : stripCI pat s with
  | none => rw [hs] at h; exact absurd h (by simp)
  | some rest2 =>
    rw [hs] at h
    obtain ⟨pre, hpre, hci⟩ := stripCI_decomp pat s rest2 hs
    exact ⟨pre, rest2, hpre, hci, h⟩

/-- A keyword branch fires on a keyword rendering followed by a captured
tail. -/
theorem kwBranch_complete (pat kw rest2 cap : List Char) (hk : stripCI pat kw = some [])
    (hw : wsCapture rest2 = some cap) : kwBranch pat (kw ++ rest2) = some cap := by
  unfold kwBranch
  rw [ciIs_strip kw pat rest2 hk]
  exact hw

/-- A keyword branch dies on a head character that does not fold onto the
pattern head. -/
theorem kwBranch_head_ne (p : Char) (ps : List Char) (c : Char) (cs : List Char)
    (hc : ¬ c.toLower = p.toLower) : kwBranch (p :: ps) (c :: cs) = none := by
  unfold kwBranch
  simp only [stripCI]
  rw [if_neg hc]

/-- `\s+` dies immediately on a non-whitespace head. -/
theorem wsCapture_head_not_ws (c : Char) (cs : List Char) (hc : jsWs c = false) :
    wsCapture (c :: cs) = none := by
  unfold wsCapture wsPlus
  simp [List.takeWhile_cons, hc, tryDrops]

/-- Every keyword rendering starts with a (non-whitespace) letter. -/
theorem KwPat_head (kw : List Char) (h : KwPat kw) :
    ∃ c1 t1, kw = c1 :: t1 ∧ jsWs c1 = false := by
  rcases h with h | h | h | ⟨w, sep, d, hkweq, hciw, _, _⟩ | ⟨w, d, hkweq, hciw, _⟩
  · unfold ciIs at h
    rw [cwd_data] at h
    obtain ⟨c1, cs, heq, hc, _⟩ := stripCI_cons_inv _ _ _ _ h
    exact ⟨c1, cs, heq, fold_letter_not_ws c1 'c' hc (by decide)⟩
  · unfold ciIs at h
    rw [dir_data] at h
    obtain ⟨c1, cs, heq, hc, _⟩ := stripCI_cons_inv _ _ _ _ h
    exact ⟨c1, cs, heq, fold_letter_not_ws c1 'd' hc (by decide)⟩
  · unfold ciIs at h
    rw [directory_data] at h
    obtain ⟨c1, cs, heq, hc, _⟩ := stripCI_cons_inv _ _ _ _ h
    exact ⟨c1, cs, heq, fold_letter_not_ws c1 'd' hc (by decide)⟩
  · unfold ciIs at hciw
    rw [working_data] at hciw
    obtain ⟨c1, cs, heq, hc, _⟩ := stripCI_cons_inv _ _ _ _ hciw
    exact ⟨c1, cs ++ sep :: d, by rw [hkweq, heq]; rfl,
      fold_letter_not_ws c1 'w' hc (by decide)⟩
  · unfold ciIs at hciw
    rw [working_data] at hciw
    obtain ⟨c1, cs, heq, hc, _⟩ := stripCI_cons_inv _ _ _ _ hciw
    exact ⟨c1, cs ++ d, by rw [hkweq, heq]; rfl,
      fold_letter_not_ws c1 'w' hc (by decide)⟩

/-- `working[- ]?directory` continuation soundness: a hit is either
separator + `directory` + capture or `directory` + capture. -/
theorem workingTail_sound (w r : List Char) (h : workingTail w = some r) :
    (∃ sep d rest2, w = sep :: (d ++ rest2) ∧ (sep = '-' ∨ sep = ' ') ∧
       stripCI "directory".data d = some [] ∧ wsCapture rest2 = some r) ∨
    (∃ d rest2, w = d ++ rest2 ∧ stripCI "directory".data d = some [] ∧
       wsCapture rest2 = some r) := by
  cases w with
  | nil =>
    simp only [workingTail] at h
    obtain ⟨d, rest2, heq, hcid, hwc⟩ := kwBranch_sound _ _ _ h
    exact Or.inr ⟨d, rest2, heq, hcid, hwc⟩
  | cons c w2 =>
    simp only [workingTail] at h
    by_cases hsep : (c = '-' || c = ' ') = true
    · rw [if_pos hsep] at h
      cases hk : kwBranch "directory".data w2 with
      | some r2 =>
        rw [hk] at h
        cases h
        obtain ⟨d, rest2, heq, hcid, hwc⟩ := kwBranch_sound _ _ _ hk
        refine Or.inl ⟨c, d, rest2, by rw [heq], ?_, hcid, hwc⟩
        simpa using hsep
      | none =>
        rw [hk] at h
        obtain ⟨d, rest2, heq, hcid, hwc⟩ := kwBranch_sound _ _ _ h
        exact Or.inr ⟨d, rest2, heq, hcid, hwc⟩
    · rw [if_neg hsep] at h
      obtain ⟨d, rest2, heq, hcid, hwc⟩ := kwBranch_sound _ _ _ h
      exact Or.inr ⟨d, rest2, heq, hcid, hwc⟩

/-- `working[- ]?directory` completeness, separator present. -/
theorem workingTail_complete_sep (sep : Char) (d rest2 cap : List Char)
    (hsep : sep = '-' ∨ sep = ' ') (hcid : stripCI "directory".data d = some [])
    (hw : wsCapture rest2 = some cap) :
    workingTail (sep :: (d ++ rest2)) = some cap := by
  simp only [workingTail]
  have hsepb : (sep = '-' || sep = ' ') = true := by
    rcases hsep with h | h <;> simp [h]
  rw [if_pos hsepb, kwBranch_complete "directory".data d rest2 cap hcid hw]

/-- `working[- ]?directory` completeness, separator absent. -/
theorem workingTail_complete_nosep (d rest2 cap : List Char)
    (hcid : stripCI "directory".data d = some [])
    (hw : wsCapture rest2 = some cap) :
    workingTail (d ++ rest2) = some cap := by
  have hd : ∃ d1 d2, d = d1 :: d2 ∧ d1.toLower = ('d' : Char).toLower := by
    have h' := hcid
    rw [directory_data] at h'
    obtain ⟨d1, d2, heq, hc, _⟩ := stripCI_cons_inv _ _ _ _ h'
    exact ⟨d1, d2, heq, hc⟩
  obtain ⟨d1, d2, hdeq, hd1⟩ := hd
  have hne1 : d1 ≠ '-' := by intro he; rw [he] at hd1; exact absurd hd1 (by decide)
  have hne2 : d1 ≠ ' ' := by intro he; rw [he] at hd1; exact absurd hd1 (by decide)
  have hcons : d ++ rest2 = d1 :: (d2 ++ rest2) := by rw [hdeq]; rfl
  rw [hcons]
  simp only [workingTail]
  rw [if_neg (by simp [hne1, hne2])]
  rw [← hcons]
  exact kwBranch_complete "directory".data d rest2 cap hcid hw

/-- Keyword alternation soundness: a hit decomposes into a keyword of the
(amended) grammar and a captured tail. -/
theorem keywordTail_sound (s r : List Char) (h : keywordTail s = some r) :
    ∃ kw rest2, s = kw ++ rest2 ∧ KwPat kw ∧ wsCapture rest2 = some r := by
  unfold keywordTail at h
  cases h1 : kwBranch "cwd".data s with
  | some r1 =>
    rw [h1] at h
    cases h
    obtain ⟨kw, rest2, hs, hk, hw⟩ := kwBranch_sound _ _ _ h1
    exact ⟨kw, rest2, hs, Or.inl hk, hw⟩
  | none =>
    rw [h1] at h
    cases h2 : kwBranch "dir".data s with
    | some r2 =>
      rw [h2] at h
      cases h
      obtain ⟨kw, rest2, hs, hk, hw⟩ := kwBranch_sound _ _ _ h2
      exact ⟨kw, rest2, hs, Or.inr (Or.inl hk), hw⟩
    | none =>
      rw [h2] at h
      cases h3 : kwBranch "directory".data s with
      | some r3 =>
        rw [h3] at h
        cases h
        obtain ⟨kw, rest2, hs, hk, hw⟩ := kwBranch_sound _ _ _ h3
        exact ⟨kw, rest2, hs, Or.inr (Or.inr (Or.inl hk)), hw⟩
      | none =>
        rw [h3] at h
        cases h4 : stripCI "working".data s with
        | none => rw [h4] at h; exact absurd h (by simp)
        | some w =>
          rw [h4] at h
          obtain ⟨w0, hseq, hciw⟩ := stripCI_decomp _ _ _ h4
          rcases workingTail_sound w r h with
            ⟨sep, d, rest2, hweq, hsep, hcid, hwc⟩ | ⟨d, rest2, hweq, hcid, hwc⟩
          · refine ⟨w0 ++ sep :: d, rest2, ?_, ?_, hwc⟩
            · rw [hseq, hweq]; simp
            · exact Or.inr (Or.inr (Or.inr (Or.inl ⟨w0, sep, d, rfl, hciw, hsep, hcid⟩)))
          · refine ⟨w0 ++ d, rest2, ?_, ?_, hwc⟩
            · rw [hseq, hweq]; simp
            · exact Or.inr (Or.inr (Or.inr (Or.inr ⟨w0, d, rfl, hciw, hcid⟩)))

/-- Keyword alternation completeness: on any grammar keyword followed by a
captured tail, the alternation fires (earlier alternatives cannot steal the
match: their keyword or trailing `\s+` fails). -/
theorem keywordTail_complete (kw rest2 cap : List Char) (hkw : KwPat kw)
    (hw : wsCapture rest2 = some cap) : keywordTail (kw ++ rest2) = some cap := by
  rcases hkw with h | h | h | ⟨w, sep, d, hkweq, hciw, hsep, hcid⟩ | ⟨w, d, hkweq, hciw, hcid⟩
  · unfold ciIs at h
    unfold keywordTail
    rw [kwBranch_complete "cwd".data kw rest2 cap h hw]
  · unfold ciIs at h
    have h' := h
    rw [dir_data] at h'
    obtain ⟨c1, cs, hkq, hc, _⟩ := stripCI_cons_inv _ _ _ _ h'
    unfold keywordTail
    have h1 : kwBranch "cwd".data (kw ++ rest2) = none := by
      rw [hkq, cwd_data, List.cons_append]
      exact kwBranch_head_ne 'c' ['w', 'd'] c1 (cs ++ rest2) (by rw [hc]; decide)
    rw [h1, kwBranch_complete "dir".data kw rest2 cap h hw]
  · unfold ciIs at h
    have h' := h
    rw [directory_data] at h'
    obtain ⟨c1, cs, hkq, hc, _⟩ := stripCI_cons_inv _ _ _ _ h'
    unfold keywordTail
    have h1 : kwBranch "cwd".data (kw ++ rest2) = none := by
      rw [hkq, cwd_data, List.cons_append]
      exact kwBranch_head_ne 'c' ['w', 'd'] c1 (cs ++ rest2) (by rw [hc]; decide)
    have hsplit := h
    rw [directory_split] at hsplit
    obtain ⟨m, hm1, hm2⟩ := stripCI_split "dir".data "ectory".data kw [] hsplit
    have hm2' := hm2
    rw [ectory_data] at hm2'
    obtain ⟨e1, m2, hmeq, he, _⟩ := stripCI_cons_inv _ _ _ _ hm2'
    have h2 : kwBranch "dir".data (kw ++ rest2) = none := by
      unfold kwBranch
      rw [stripCI_append "dir".data kw m rest2 hm1, hmeq, List.cons_append]
      exact wsCapture_head_not_ws e1 (m2 ++ rest2)
        (fold_letter_not_ws e1 'e' he (by decide))
    rw [h1, h2, kwBranch_complete "directory".data kw rest2 cap h hw]
  · unfold ciIs at hciw hcid
    have hw' := hciw
    rw [working_data] at hw'
    obtain ⟨c1, cs, hweq2, hc, _⟩ := stripCI_cons_inv _ _ _ _ hw'
    have hhead : kw ++ rest2 = c1 :: (cs ++ (sep :: d ++ rest2)) := by
      rw [hkweq, hweq2]; simp
    unfold keywordTail
    have h1 : kwBranch "cwd".data (kw ++ rest2) = none := by
      rw [hhead, cwd_data]
      exact kwBranch_head_ne 'c' ['w', 'd'] c1 _ (by rw [hc]; decide)
    have h2 : kwBranch "dir".data (kw ++ rest2) = none := by
      rw [hhead, dir_data]
      exact kwBranch_head_ne 'd' ['i', 'r'] c1 _ (by rw [hc]; decide)
    have h3 : kwBranch "directory".data (kw ++ rest2) = none := by
      rw [hhead, directory_data]
      exact kwBranch_head_ne 'd' _ c1 _ (by rw [hc]; decide)
    have h4 : stripCI "working".data (kw ++ rest2) = some (sep :: (d ++ rest2)) := by
      have hx : kw ++ rest2 = w ++ (sep :: (d ++ rest2)) := by rw [hkweq]; simp
      rw [hx]
      exact ciIs_strip w "working".data (sep :: (d ++ rest2)) hciw
    rw [h1, h2, h3, h4]
    exact workingTail_complete_sep sep d rest2 cap hsep hcid hw
  · unfold ciIs at hciw hcid
    have hw' := hciw
    rw [working_data] at hw'
    obtain ⟨c1, cs, hweq2, hc, _⟩ := stripCI_cons_inv _ _ _ _ hw'
    have hhead : kw ++ rest2 = c1 :: (cs ++ (d ++ rest2)) := by
      rw [hkweq, hweq2]; simp
    unfold keywordTail
    have h1 : kwBranch "cwd".data (kw ++ rest2) = none := by
      rw [hhead, cwd_data]
      exact kwBranch_head_ne 'c' ['w', 'd'] c1 _ (by rw [hc]; decide)
    have h2 : kwBranch "dir".data (kw ++ rest2) = none := by
      rw [hhead, dir_data]
      exact kwBranch_head_ne 'd' ['i', 'r'] c1 _ (by rw [hc]; decide)
    have h3 : kwBranch "directory".data (kw ++ rest2) = none := by
      rw [hhead, directory_data]
      exact kwBranch_head_ne 'd' _ c1 _ (by rw [hc]; decide)
    have h4 : stripCI "working".data (kw ++ rest2) = some (d ++ rest2) := by
      have hx : kw ++ rest2 = w ++ (d ++ rest2) := by rw [hkweq]; simp
      rw [hx]
      exact ciIs_strip w "working".data (d ++ rest2) hciw
    rw [h1, h2, h3, h4]
    exact workingTail_complete_nosep d rest2 cap hcid hw

/-- A nonempty slice of the maximal whitespace run is nonempty. -/
theorem take_ws_ne_nil (l : List Char) (j : Nat) (hj1 : 1 ≤ j)
    (hj2 : j ≤ (l.takeWhile jsWs).length) : l.take j ≠ [] := by
  have hlen : (l.takeWhile jsWs).length ≤ l.length := by
    conv_rhs => rw [← List.takeWhile_append_dropWhile (p := jsWs) (l := l)]
    rw [List.length_append]
    omega
  intro hnil
  have hz := congrArg List.length hnil
  rw [List.length_take] at hz
  simp only [List.length_nil] at hz
  rcases Nat.min_eq_zero_iff.mp hz with h0 | h0 <;> omega

/-- Short-form soundness: a `^cwd\s+(.+)$` hit satisfies the declarative
short-form grammar with the trimmed capture as value. -/
theorem matchCwdForm_sound (cs cap : List Char) (h : matchCwdForm cs = some cap) :
    AGShort cs (jsTrim (String.mk cap)) := by
  unfold matchCwdForm at h
  cases hs : stripCI "cwd".data cs with
  | none => rw [hs] at h; exact absurd h (by simp)
  | some rest =>
    rw [hs] at h
    obtain ⟨pre, hpre, hci⟩ := stripCI_decomp _ _ _ hs
    obtain ⟨j, hj1, hj2, hcapeq, hne, hdot⟩ := wsCapture_sound rest cap h
    refine ⟨pre, rest.take j, rest.drop j, ?_, hci, ?_, ?_, ?_, ?_, ?_⟩
    · rw [hpre, List.append_assoc, List.take_append_drop]
    · exact take_ws_ne_nil rest j hj1 hj2
    · exact take_all_ws rest j hj2
    · rw [← hcapeq]; exact hne
    · rw [← hcapeq]; exact hdot
    · rw [hcapeq]

/-- Short-form completeness: the declarative short form makes `^cwd\s+(.+)$`
fire, with the same trimmed value. -/
theorem matchCwdForm_complete (cs : List Char) (v : String) (h : AGShort cs v) :
    ∃ cap, matchCwdForm cs = some cap ∧ jsTrim (String.mk cap) = v := by
  obtain ⟨pre, ws, val, hcseq, hci, hws1, hws2, hv1, hv2, hveq⟩ := h
  obtain ⟨cap, hcap, htrim⟩ := wsCapture_complete ws val hws1 hws2 hv1 hv2
  refine ⟨cap, ?_, ?_⟩
  · unfold matchCwdForm
    have hstrip : stripCI "cwd".data cs = some (ws ++ val) := by
      rw [hcseq, List.append_assoc]
      exact ciIs_strip pre "cwd".data (ws ++ val) hci
    rw [hstrip]
    exact hcap
  · rw [hveq]
    show String.mk (jsTrimL cap) = String.mk (jsTrimL val)
    rw [htrim]

/-- Long-form soundness: a hit of
`^set\s+(?:cwd|dir|directory|working[- ]?directory)\s+(.+)$` satisfies the
declarative long-form grammar with the trimmed capture as value. -/
theorem matchSetForm_sound (cs cap : List Char) (h : matchSetForm cs = some cap) :
    AGLong cs (jsTrim (String.mk cap)) := by
  unfold matchSetForm at h
  cases hs : stripCI "set".data cs with
  | none => rw [hs] at h; exact absurd h (by simp)
  | some rest1 =>
    rw [hs] at h
    unfold wsPlus at h
    obtain ⟨j, hj1, hj2, hjk, _⟩ := tryDrops_sound keywordTail _ rest1 cap h
    obtain ⟨pre, hpre, hci⟩ := stripCI_decomp _ _ _ hs
    obtain ⟨kw, rest2, hkweq, hkwpat, hwc⟩ := keywordTail_sound _ _ hjk
    obtain ⟨j2, hj21, hj22, hcapeq, hne, hdot⟩ := wsCapture_sound rest2 cap hwc
    refine ⟨pre, rest1.take j, kw, rest2.take j2, rest2.drop j2, ?_, hci, ?_, ?_,
      hkwpat, ?_, ?_, ?_, ?_, ?_⟩
    · rw [hpre]
      calc pre ++ rest1
          = pre ++ (rest1.take j ++ rest1.drop j) := by rw [List.take_append_drop]
        _ = pre ++ (rest1.take j ++ (kw ++ rest2)) := by rw [hkweq]
        _ = pre ++ (rest1.take j ++ (kw ++ (rest2.take j2 ++ rest2.drop j2))) := by
              rw [List.take_append_drop]
        _ = pre ++ rest1.take j ++ kw ++ rest2.take j2 ++ rest2.drop j2 := by
              simp [List.append_assoc]
    · exact take_ws_ne_nil rest1 j hj1 hj2
    · exact take_all_ws rest1 j hj2
    · exact take_ws_ne_nil rest2 j2 hj21 hj22
    · exact take_all_ws rest2 j2 hj22
    · rw [← hcapeq]; exact hne
    · rw [← hcapeq]; exact hdot
    · rw [hcapeq]

/-- Long-form completeness: the declarative long form makes the anchored
long-form expression fire, with the same trimmed value. -/
theorem matchSetForm_complete (cs : List Char) (v : String) (h : AGLong cs v) :
    ∃ cap, matchSetForm cs = some cap ∧ jsTrim (String.mk cap) = v := by
  obtain ⟨pre, ws1, kw, ws2, val, hcseq, hci, hws11, hws12, hkwpat, hws21, hws22,
    hv1, hv2, hveq⟩ := h
  obtain ⟨cap, hcap, htrim⟩ := wsCapture_complete ws2 val hws21 hws22 hv1 hv2
  have hkt : keywordTail (kw ++ (ws2 ++ val)) = some cap :=
    keywordTail_complete kw (ws2 ++ val) cap hkwpat hcap
  obtain ⟨c1, t1, hkwc, hc1⟩ := KwPat_head kw hkwpat
  have hstrip : stripCI "set".data cs = some (ws1 ++ (kw ++ (ws2 ++ val))) := by
    rw [hcseq]
    have hx : pre ++ ws1 ++ kw ++ ws2 ++ val = pre ++ (ws1 ++ (kw ++ (ws2 ++ val))) := by
      simp [List.append_assoc]
    rw [hx]
    exact ciIs_strip pre "set".data _ hci
  have htw : ((ws1 ++ (kw ++ (ws2 ++ val))).takeWhile jsWs).length = ws1.length := by
    rw [hkwc, List.cons_append]
    exact ws_run_exact ws1 c1 (t1 ++ (ws2 ++ val)) hws12 hc1
  have hdrop : (ws1 ++ (kw ++ (ws2 ++ val))).drop ws1.length = kw ++ (ws2 ++ val) :=
    List.drop_left _ _
  have hj0 : keywordTail ((ws1 ++ (kw ++ (ws2 ++ val))).drop ws1.length) = some cap := by
    rw [hdrop]; exact hkt
  have hl : 1 ≤ ws1.length := List.length_pos.mpr hws11
  obtain ⟨r, hr⟩ := tryDrops_complete keywordTail _ _ ws1.length cap hl htw.ge hj0
  obtain ⟨j, hj1, hj2, hjk, hmax⟩ := tryDrops_sound keywordTail _ _ r hr
  have hjge : ws1.length ≤ j := by
    by_contra hlt
    push_neg at hlt
    have hnone := hmax ws1.length hlt htw.ge
    rw [hnone] at hj0
    exact absurd hj0 (by simp)
  have hjeq : j = ws1.length := le_antisymm (htw ▸ hj2) hjge
  have hrcap : r = cap := by
    rw [hjeq, hdrop] at hjk
    rw [hkt] at hjk
    exact (Option.some.inj hjk).symm
  refine ⟨cap, ?_, ?_⟩
  · unfold matchSetForm
    rw [hstrip]
    show wsPlus keywordTail (ws1 ++ (kw ++ (ws2 ++ val))) = some cap
    unfold wsPlus
    rw [hr, hrcap]
  · rw [hveq]
    show String.mk (jsTrimL cap) = String.mk (jsTrimL val)
    rw [htrim]

/-- C9 (amended): for every input text, the set-command parser accepts
exactly the short form `cwd <value>` and the long form
`set (cwd|dir|directory|working[- ]?directory) <value>` — the separator
inside the working-directory keyword being optional — case-insensitively
with the captured value trimmed, and every other input (including forms
outside this grammar) yields the not-a-set-command result. -/
theorem C9_set_command_grammar (text v : String) :
    parseSetCommand text = some v ↔ AmendedSetGrammar text v := by
  constructor
  · intro h
    unfold parseSetCommand at h
    cases h1 : matchCwdForm text.data with
    | some cap =>
      rw [h1] at h
      have hv : jsTrim (String.mk cap) = v := Option.some.inj h
      exact Or.inl (hv ▸ matchCwdForm_sound text.data cap h1)
    | none =>
      rw [h1] at h
      cases h2 : matchSetForm text.data with
      | some cap =>
        rw [h2] at h
        have hv : jsTrim (String.mk cap) = v := Option.some.inj h
        exact Or.inr (hv ▸ matchSetForm_sound text.data cap h2)
      | none => rw [h2] at h; exact absurd h (by simp)
  · intro h
    rcases h with hs | hl
    · obtain ⟨cap, hc, hv⟩ := matchCwdForm_complete text.data v hs
      unfold parseSetCommand
      rw [hc]
      show some (jsTrim (String.mk cap)) = some v
      rw [hv]
    · have hnone : matchCwdForm text.data = none := by
        obtain ⟨pre, ws1, kw, ws2, val, hcseq, hci, _⟩ := hl
        unfold ciIs at hci
        have h' := hci
        rw [set_data] at h'
        obtain ⟨c1, cs1, hpreq, hc1, _⟩ := stripCI_cons_inv _ _ _ _ h'
        have hhead : text.data = c1 :: (cs1 ++ ws1 ++ kw ++ ws2 ++ val) := by
          rw [hcseq, hpreq]
          simp [List.append_assoc]
        unfold matchCwdForm
        have hz : stripCI "cwd".data (c1 :: (cs1 ++ ws1 ++ kw ++ ws2 ++ val)) = none := by
          rw [cwd_data]
          simp only [stripCI]
          rw [if_neg (by rw [hc1]; decide)]
        rw [hhead, hz]
      obtain ⟨cap, hc, hv⟩ := matchSetForm_complete text.data v hl
      unfold parseSetCommand
      rw [hnone, hc]
      show some (jsTrim (String.mk cap)) = some v
      rw [hv]
